import Mathlib

/-!
Verification of the `grim-fairy-tale-dh-analysis` repository against its
natural-language specification.

The Python sources under `src/src/` are shallowly embedded below:
  * `parsers.py` (`EventDumpParser`): `parseFile`, `normalizeType`,
    `countCommandsByMap` / `classifyDensity`,
  * `experiment_1_alignment.py` (`StructuralAlignment`): `computeAlignment`,
    `classifyMatch`, `timestampToMinutes`, `calculateAlignmentScore`,
  * `experiment_3_network.py` (`SemanticNetwork`): `processDialogues` /
    `buildNetwork`,
  * `experiment_4_motif.py` (`MotifEvolution`): `extractInstances`.

Machine floats in the source are modelled as exact rationals (`ℚ`);
Python text is modelled over Lean `String` / `List Char`, with whitespace
and case handling restricted to the ASCII behaviour of the corresponding
Lean primitives.
-/

namespace GrimFairy

/-- `startsWithList p l` decides whether `p` is an initial segment of `l`
(Python's `str.startswith` over character lists). -/
def startsWithList : List Char → List Char → Bool
  | [], _ => true
  | _ :: _, [] => false
  | a :: p, b :: l => a = b && startsWithList p l

/-- `containsList p l` decides whether `p` occurs as a contiguous run
inside `l`. -/
def containsList (p : List Char) : List Char → Bool
  | [] => startsWithList p []
  | b :: l => startsWithList p (b :: l) || containsList p l

/-- Python's `p in s` substring containment test on strings. -/
def pyIn (p s : String) : Bool := containsList p.toList s.toList

/-- ASCII whitespace, modelling the characters stripped by Python's
`str.strip()` (Python also strips some further Unicode space characters;
those never occur in the data handled here). -/
def isWS (c : Char) : Bool := c = ' ' || c = '\t' || c = '\n' || c = '\r' || c = '\x0b' || c = '\x0c'

/-- Strip trailing whitespace from a character list (`str.rstrip()`). -/
def rstripWS (l : List Char) : List Char := (l.reverse.dropWhile isWS).reverse

/-- Strip leading and trailing whitespace (`str.strip()`). -/
def stripList (l : List Char) : List Char := rstripWS (l.dropWhile isWS)

/-- `str.strip()` on strings. -/
def pyStrip (s : String) : String := ⟨stripList s.toList⟩

/-- Digit-run tail for Python integer literals: digits, with single
underscores allowed between digits (`int("1_0") = 10`). -/
def digitsTail : List Char → Bool
  | [] => true
  | '_' :: c :: cs => c.isDigit && digitsTail cs
  | ['_'] => false
  | c :: cs => c.isDigit && digitsTail cs

/-- A valid unsigned Python integer-literal body: nonempty, starts with a
digit, underscores only between digits. -/
def digitsOK : List Char → Bool
  | [] => false
  | c :: cs => c.isDigit && digitsTail cs

/-- Numeric value of a digit run (underscores skipped). -/
def digitsVal (l : List Char) : ℕ :=
  (l.filter (· ≠ '_')).foldl (fun acc c => 10 * acc + (c.toNat - '0'.toNat)) 0

/-- Python's `int(s)` conversion: strips surrounding whitespace, accepts an
optional sign followed by an ASCII digit run, and raises `ValueError`
(modelled as `Except.error`) on anything else. -/
def pyInt (s : String) : Except String ℤ :=
  match stripList s.toList with
  | '+' :: rest => if digitsOK rest then .ok (digitsVal rest) else .error ("invalid literal for int: " ++ s)
  | '-' :: rest => if digitsOK rest then .ok (-(digitsVal rest : ℤ)) else .error ("invalid literal for int: " ++ s)
  | rest => if digitsOK rest then .ok (digitsVal rest) else .error ("invalid literal for int: " ++ s)

/-- First-occurrence deduplication (the key order of a Python `dict` /
`defaultdict` built by insertion). -/
def dedupFirst {α : Type} [DecidableEq α] : List α → List α
  | [] => []
  | x :: xs => x :: (dedupFirst xs).filter (· ≠ x)

/-- Replace the `i`-th element of a list by `f` applied to it (no-op when
out of range); used to model in-place mutation through Python references. -/
def modifyAt {α : Type} (f : α → α) : ℕ → List α → List α
  | _, [] => []
  | 0, x :: xs => f x :: xs
  | n + 1, x :: xs => x :: modifyAt f n xs

/-- Replace the last element of a list by `f` applied to it (models
`lst[-1] = ...` / in-place mutation of `lst[-1]`). -/
def modifyLast {α : Type} (f : α → α) : List α → List α
  | [] => []
  | [x] => [f x]
  | x :: xs => x :: modifyLast f xs

/-! ### `EventDumpParser` (src/src/parsers.py) -/

/-- Pack a character list back into a string after stripping it
(`str.strip()` composed with the packing). -/
def stripStr (l : List Char) : String := ⟨stripList l⟩

/-- One parsed command dictionary (`parsers.py` lines 105–111). -/
structure Command where
  type : String
  normalizedType : String
  line : ℕ
  content : String
  raw : String
  deriving DecidableEq, Repr

/-- One parsed event dictionary (`parsers.py` lines 90–94). -/
structure PEvent where
  id : ℤ
  name : String
  commands : List Command
  deriving DecidableEq, Repr

/-- One parsed map dictionary (`parsers.py` lines 76–80). -/
structure PMap where
  id : ℤ
  name : String
  events : List PEvent
  deriving DecidableEq, Repr

/-- `EventDumpParser.COMMAND_TYPES` (`parsers.py` lines 32–46), in its
declaration order; the `Other` entry has an empty keyword list. -/
def COMMAND_TYPES : List (String × List String) :=
  [("Text", ["Text"]),
   ("Battle", ["Battle Processing"]),
   ("Logic", ["Conditional Branch", "Control Switches", "Control Variables",
              "Loop", "Break Loop", "Exit Event Processing", "Script"]),
   ("Navigation", ["Transfer Player", "Set Move Route", "Wait for Move"]),
   ("Party", ["Change Party Member", "Change Items", "Change Gold"]),
   ("Audio", ["Play BGM", "Play SE", "Stop BGM", "Change BGS"]),
   ("Visual", ["Change Transparent", "Show Animation", "Show Picture",
               "Erase Picture", "Screen Tone", "Flash Screen", "Shake Screen"]),
   ("Message", ["Show Choices", "Input Number", "Message Window"]),
   ("Common", ["Call Common Event"]),
   ("Wait", ["Wait"]),
   ("Other", [])]

/-- The loop body of `EventDumpParser._normalize_type`: scan the category
table in order, returning the first category one of whose keywords occurs
inside the raw label (`if any(p in cmd_type for p in patterns)`). -/
def normalizeTypeAux (cmdType : String) : List (String × List String) → String
  | [] => "Other"
  | (cat, pats) :: rest =>
    if pats.any (fun p => pyIn p cmdType) then cat else normalizeTypeAux cmdType rest

/-- `EventDumpParser._normalize_type` (`parsers.py` lines 153–166). -/
def normalizeType (cmdType : String) : String := normalizeTypeAux cmdType COMMAND_TYPES

/-- `EventDumpParser._extract_command_type` (`parsers.py` lines 121–135),
applied to the already-stripped line: the regex `@>([^:]+)(?::|$)` takes
the nonempty greedy run of non-colon characters after `@>` (stripped), and
yields `Unknown` when the regex cannot match. -/
def extractCommandType (stripped : List Char) : String :=
  if startsWithList ['@', '>'] stripped then
    let t := (stripped.drop 2).takeWhile (· ≠ ':')
    if t = [] then "Unknown" else stripStr t
  else "Unknown"

/-- `EventDumpParser._extract_content` (`parsers.py` lines 137–151): the
regex `@>[^:]+:\s*(.*)` requires a colon after a nonempty raw type and
captures the stripped remainder; otherwise the content is empty. -/
def extractContent (stripped : List Char) : String :=
  if startsWithList ['@', '>'] stripped then
    let rest := stripped.drop 2
    match rest.takeWhile (· ≠ ':'), rest.dropWhile (· ≠ ':') with
    | _ :: _, _ :: cTail => stripStr cTail
    | _, _ => ""
  else ""

/-- Characters after the first colon of a line (`line.split(':', 1)[1]`,
total: empty when the line has no colon — the callers' `startswith`
guards guarantee a colon is present). -/
def afterFirstColon (l : List Char) : List Char := (l.dropWhile (· ≠ ':')).tail

/-- Characters between the first colon and the following colon or end of
line (`line.split(':')[1]`). -/
def splitSeg1 (l : List Char) : List Char := (afterFirstColon l).takeWhile (· ≠ ':')

/-- The mutable scan state of `EventDumpParser.parse_file`: the map list
built so far plus the `current_map` / `current_event` references, modelled
as positions into `maps` (Python mutates shared dict references; every
mutation below is routed through these indices, which by construction
always denote the dicts those references alias). -/
structure ParseState where
  maps : List PMap
  curMap : Option ℕ
  curEvent : Option (ℕ × ℕ)
  deriving DecidableEq, Repr

/-- Dereference a `(map index, event index)` pair. -/
def getEvent? (st : ParseState) (i j : ℕ) : Option PEvent := do
  let m ← st.maps[i]?
  m.events[j]?

/-- The continuation-line marker `':    :'` (colon, four spaces, colon). -/
def contMarker : List Char := ':' :: ' ' :: ' ' :: ' ' :: ' ' :: [':']

/-- One iteration of the `parse_file` line loop (`parsers.py` lines
70–117): the `if`/`elif` chain in source order.  Unparseable numeric ids
surface as `Except.error`, modelling the uncaught `ValueError` from
`int(...)`. -/
def processLine (st : ParseState) (lineNum : ℕ) (line : List Char) : Except String ParseState :=
  if startsWithList ("Map ID:".toList) line then do
    -- pyInt strips its argument, so `line.split(':')[1].strip()` folds in
    let mapId ← pyInt ⟨splitSeg1 line⟩
    pure { st with maps := st.maps ++ [{ id := mapId, name := "", events := [] }],
                   curMap := some st.maps.length }
  else if startsWithList ("Map Name:".toList) line && st.curMap.isSome then
    match st.curMap with
    | some i => pure { st with
        maps := modifyAt (fun m => { m with name := stripStr (afterFirstColon line) }) i st.maps }
    | none => pure st
  else if startsWithList ("Event ID:".toList) line && st.curMap.isSome then
    match st.curMap with
    | some i => do
      let eventId ← pyInt ⟨splitSeg1 line⟩
      let nEvents := ((st.maps[i]?).map (fun m => m.events.length)).getD 0
      pure { st with
        maps := modifyAt (fun m => { m with
          events := m.events ++ [{ id := eventId, name := "", commands := [] }] }) i st.maps,
        curEvent := some (i, nEvents) }
    | none => pure st
  else if startsWithList ("Event Name:".toList) line && st.curEvent.isSome then
    match st.curEvent with
    | some (i, j) => pure { st with
        maps := modifyAt (fun m => { m with
          events := modifyAt (fun e => { e with name := stripStr (afterFirstColon line) }) j m.events }) i st.maps }
    | none => pure st
  else if startsWithList ['@', '>'] (stripList line) && st.curEvent.isSome then
    match st.curEvent with
    | some (i, j) =>
      let cmdType := extractCommandType (stripList line)
      let cmd : Command :=
        { type := cmdType, normalizedType := normalizeType cmdType,
          line := lineNum, content := extractContent (stripList line), raw := ⟨stripList line⟩ }
      pure { st with
        maps := modifyAt (fun m => { m with
          events := modifyAt (fun e => { e with commands := e.commands ++ [cmd] }) j m.events }) i st.maps }
    | none => pure st
  else if startsWithList contMarker (stripList line) && st.curEvent.isSome then
    match st.curEvent with
    | some (i, j) =>
      match (getEvent? st i j).bind (fun e => e.commands.getLast?) with
      | some c =>
        if c.type = "Text" then
          pure { st with
            maps := modifyAt (fun m => { m with
              events := modifyAt (fun e => { e with
                commands := modifyLast (fun cmd => { cmd with
                  content := cmd.content ++ "\n" ++ stripStr ((stripList line).drop 6) }) e.commands }) j m.events }) i st.maps }
        else pure st
      | none => pure st
    | none => pure st
  else
    pure st

/-- Fold `processLine` over the numbered lines (`enumerate(f, 1)`). -/
def parseLines : ParseState → ℕ → List (List Char) → Except String (List PMap)
  | st, _, [] => .ok st.maps
  | st, n, l :: ls => do
    let st' ← processLine st n l
    parseLines st' (n + 1) ls

/-- `line.rstrip('\n\r')`: strip trailing newline characters. -/
def rstripNL (l : List Char) : List Char :=
  (l.reverse.dropWhile (fun c => c = '\n' || c = '\r')).reverse

/-- The initial scan state (`self.maps = []`, both references `None`). -/
def initState : ParseState := { maps := [], curMap := none, curEvent := none }

/-- `EventDumpParser.parse_file` (`parsers.py` lines 52–119) over the
file's lines. -/
def parseFile (lines : List String) : Except String (List PMap) :=
  parseLines initState 1 (lines.map (fun s => rstripNL s.toList))

/-! ### Density aggregation (`EventDumpParser.count_commands_by_map`) -/

/-- All commands of one map, in event order (the nested
`for event ... for cmd ...` loop of `count_commands_by_map`). -/
def allCommands (m : PMap) : List Command := m.events.flatMap (fun e => e.commands)

/-- The per-category counter (`counts[cmd['normalized_type']] += 1`
followed by `counts.get(c, 0)`). -/
def catCount (m : PMap) (c : String) : ℕ :=
  (allCommands m).countP (fun cmd => cmd.normalizedType = c)

/-- Round-half-to-even on rationals, the tie behaviour of Python's
`round`; this models Python's `round(x, 4)` at the decimal level (the
additional binary-float representation error of CPython floats is far
below the 4-decimal grid for the values arising here). -/
def roundHalfEven (q : ℚ) : ℤ :=
  if q - (⌊q⌋ : ℚ) < 1 / 2 then ⌊q⌋
  else if 1 / 2 < q - (⌊q⌋ : ℚ) then ⌊q⌋ + 1
  else if Even ⌊q⌋ then ⌊q⌋ else ⌊q⌋ + 1

/-- Python's `round(q, 4)`. -/
def round4 (q : ℚ) : ℚ := (roundHalfEven (q * 10000) : ℚ) / 10000

/-- `EventDumpParser._classify_density` (`parsers.py` lines 213–228). -/
def classifyDensity (density : ℚ) : String :=
  if density > 7 / 10 then "Story-Heavy"
  else if density > 3 / 10 then "Mixed"
  else "Combat/Traversal"

/-- One row of the `count_commands_by_map` DataFrame
(`parsers.py` lines 197–209). -/
structure MapRow where
  mapId : ℤ
  mapName : String
  dialogueCount : ℕ
  battleCount : ℕ
  logicCount : ℕ
  navigationCount : ℕ
  visualAudioCount : ℕ
  otherCount : ℕ
  totalCommands : ℕ
  narrativeDensity : ℚ
  classification : String
  deriving DecidableEq, Repr

/-- The loop body of `EventDumpParser.count_commands_by_map`
(`parsers.py` lines 180–209): bucket counts, rounded density and
classification for one map. -/
def countRow (m : PMap) : MapRow :=
  let dialogue := catCount m "Text"
  let battle := catCount m "Battle" + catCount m "Common"
  let logic := catCount m "Logic"
  let navigation := catCount m "Navigation"
  let visual := catCount m "Visual" + catCount m "Audio"
  let other := catCount m "Other" + catCount m "Message" + catCount m "Wait" + catCount m "Party"
  let total := dialogue + battle + logic + navigation + visual + other
  let density : ℚ := if 0 < total then (dialogue : ℚ) / (total : ℚ) else 0
  { mapId := m.id, mapName := m.name,
    dialogueCount := dialogue, battleCount := battle, logicCount := logic,
    navigationCount := navigation, visualAudioCount := visual, otherCount := other,
    totalCommands := total,
    narrativeDensity := round4 density,
    classification := classifyDensity density }

/-- `EventDumpParser.count_commands_by_map` over a parsed map list. -/
def countCommandsByMap (maps : List PMap) : List MapRow := maps.map countRow

/-- A command dictionary is well-formed when its stored normalized
category is the normalization of its raw type, as `parse_file` line 107
establishes for every command it ever creates. -/
def cmdWF (c : Command) : Prop := c.normalizedType = normalizeType c.type

/-- All commands in a parsed map list are well-formed. -/
def mapsWF (maps : List PMap) : Prop :=
  ∀ m ∈ maps, ∀ e ∈ m.events, ∀ c ∈ e.commands, cmdWF c

/-- The claim-side reading of `_normalize_type`: try the ten keyworded
categories in table-declaration order (Text, Battle, Logic, Navigation,
Party, Audio, Visual, Message, Common, Wait), first match winning, and
default to `Other` when no keyword of any category occurs in the label. -/
def claimNormalize (s : String) : String :=
  if pyIn "Text" s then "Text"
  else if pyIn "Battle Processing" s then "Battle"
  else if pyIn "Conditional Branch" s || pyIn "Control Switches" s || pyIn "Control Variables" s
       || pyIn "Loop" s || pyIn "Break Loop" s || pyIn "Exit Event Processing" s || pyIn "Script" s then "Logic"
  else if pyIn "Transfer Player" s || pyIn "Set Move Route" s || pyIn "Wait for Move" s then "Navigation"
  else if pyIn "Change Party Member" s || pyIn "Change Items" s || pyIn "Change Gold" s then "Party"
  else if pyIn "Play BGM" s || pyIn "Play SE" s || pyIn "Stop BGM" s || pyIn "Change BGS" s then "Audio"
  else if pyIn "Change Transparent" s || pyIn "Show Animation" s || pyIn "Show Picture" s
       || pyIn "Erase Picture" s || pyIn "Screen Tone" s || pyIn "Flash Screen" s || pyIn "Shake Screen" s then "Visual"
  else if pyIn "Show Choices" s || pyIn "Input Number" s || pyIn "Message Window" s then "Message"
  else if pyIn "Call Common Event" s then "Common"
  else if pyIn "Wait" s then "Wait"
  else "Other"

/-! ### `StructuralAlignment` (src/src/experiment_1_alignment.py) -/

/-- A film beat record from `ballad_of_soldier_beats.json`
(fields used by `compute_alignment`). -/
structure FilmBeat where
  type : String
  timestamp : String
  description : String
  deriving DecidableEq, Repr

/-- A game beat record from `context_keywords.json` (`game_beats`). -/
structure GameBeat where
  type : String
  description : String
  mapId : ℤ
  eventId : ℤ
  line : ℤ
  deriving DecidableEq, Repr

/-- One `alignment_data` entry (`experiment_1_alignment.py`
lines 107–129). -/
structure Row where
  beatType : String
  filmTimestamp : String
  filmBeat : String
  gameLocation : String
  gameBeat : String
  matchType : String
  matched : Bool
  deriving DecidableEq, Repr

/-- Tokenizer for Python's `str.split()`: accumulate the current word
(reversed) and emit words at whitespace boundaries. -/
def wordsWSGo (cur : List Char) : List Char → List (List Char)
  | [] => if cur = [] then [] else [cur.reverse]
  | c :: cs =>
    if isWS c then (if cur = [] then wordsWSGo [] cs else cur.reverse :: wordsWSGo [] cs)
    else wordsWSGo (c :: cur) cs

/-- Python's `str.split()` (split on whitespace runs, no empty pieces). -/
def pySplitWS (s : String) : List String :=
  (wordsWSGo [] s.toList).map (fun w => (⟨w⟩ : String))

/-- Python's `str.lower()` over ASCII letters. -/
def pyLower (s : String) : String := ⟨s.toList.map Char.toLower⟩

/-- The fixed overlap vocabulary of `_classify_match`
(`experiment_1_alignment.py` lines 160–162). -/
def overlapWords : List String :=
  ["kill", "tank", "wolf", "werewolf", "visit", "mother",
   "grandmother", "leave", "return", "soap", "letter",
   "deliver", "promise", "train", "journey", "delay"]

/-- `StructuralAlignment._classify_match` (`experiment_1_alignment.py`
lines 141–170): lowercase and whitespace-split both descriptions, keep
the words belonging to the overlap vocabulary on each side (the Python
set intersections), and report a Direct Transposition exactly when the
two restricted word sets meet. -/
def classifyMatch (fb : FilmBeat) (gb : GameBeat) : String :=
  let filmWords := pySplitWS (pyLower fb.description)
  let gameWords := pySplitWS (pyLower gb.description)
  let filmKey := filmWords.filter (fun w => overlapWords.contains w)
  let gameKey := gameWords.filter (fun w => overlapWords.contains w)
  if filmKey.any (fun w => gameKey.contains w) then "Direct Transposition"
  else "Structural Homology"

/-- The claim-side match test: the two lowercased descriptions share some
word of the fixed overlap vocabulary. -/
def sharesOverlapWord (fd gd : String) : Bool :=
  overlapWords.any (fun w =>
    (pySplitWS (pyLower fd)).contains w && (pySplitWS (pyLower gd)).contains w)

/-- `beat_type.replace('_', ' ')`. -/
def replaceUnderscore (s : String) : String :=
  ⟨s.toList.map (fun c => if c = '_' then ' ' else c)⟩

/-- Python's `str.title()` over ASCII: a letter is uppercased when the
previous character is not a letter, lowercased otherwise. -/
def titleCaseGo : Bool → List Char → List Char
  | _, [] => []
  | prevAlpha, c :: cs =>
    if c.isAlpha then (if prevAlpha then c.toLower else c.toUpper) :: titleCaseGo true cs
    else c :: titleCaseGo false cs

/-- `str.title()`. -/
def titleCase (s : String) : String := ⟨titleCaseGo false s.toList⟩

/-- The displayed beat type: `beat_type.replace('_', ' ').title()`. -/
def beatTypeDisplay (bt : String) : String := titleCase (replaceUnderscore bt)

/-- Python's `f"{n:03d}"`: decimal digits zero-padded to width 3
(the sign counts toward the width). -/
def pad3 (n : ℤ) : String :=
  let digits := Nat.repr n.natAbs
  let sign := if n < 0 then "-" else ""
  sign ++ String.mk (List.replicate (3 - (sign.length + digits.length)) '0') ++ digits

/-- The `Game Location` column string
(`experiment_1_alignment.py` line 111). -/
def gameLocation (gb : GameBeat) : String :=
  "Map " ++ pad3 gb.mapId ++ ", Event " ++ pad3 gb.eventId ++ ", Line " ++ toString gb.line

/-- A matched `alignment_data` entry (lines 107–115). -/
def rowMatched (bt : String) (fb : FilmBeat) (gb : GameBeat) : Row :=
  { beatType := beatTypeDisplay bt, filmTimestamp := fb.timestamp,
    filmBeat := fb.description, gameLocation := gameLocation gb,
    gameBeat := gb.description, matchType := classifyMatch fb gb, matched := true }

/-- An unmatched `alignment_data` entry (lines 121–129). -/
def rowUnmatched (bt : String) (fb : FilmBeat) : Row :=
  { beatType := beatTypeDisplay bt, filmTimestamp := fb.timestamp,
    filmBeat := fb.description, gameLocation := "—",
    gameBeat := "(No match)", matchType := "Unmatched", matched := false }

/-- `defaultdict(list)` insertion: append `v` at the end of the group of
key `k`, creating the group at the back on first appearance. -/
def addToGroup {β : Type} (k : String) (v : β) : List (String × List β) → List (String × List β)
  | [] => [(k, [v])]
  | (k', vs) :: rest =>
    if k' = k then (k', vs ++ [v]) :: rest else (k', vs) :: addToGroup k v rest

/-- Build the `film_by_type` / `game_by_type` tables
(`experiment_1_alignment.py` lines 88–94): iterate the beats, appending
each to its type's group. -/
def groupByFirst {β : Type} (key : β → String) (l : List β) : List (String × List β) :=
  l.foldl (fun acc b => addToGroup (key b) b acc) []

/-- `d.get(k, [])` on the association-list model of a `dict`. -/
def groupGet {β : Type} (t : String) : List (String × List β) → List β
  | [] => []
  | (k, vs) :: rest => if k = t then vs else groupGet t rest

/-- The inner loop of `compute_alignment` for one beat type (lines
101–129): each film instance consumes the head of the remaining game
instances (`game_instances = game_instances[1:]`), or is marked
unmatched when none remain. -/
def alignGroup (bt : String) : List FilmBeat → List GameBeat → List Row
  | [], _ => []
  | fb :: fbs, [] => rowUnmatched bt fb :: alignGroup bt fbs []
  | fb :: fbs, gb :: gbs => rowMatched bt fb gb :: alignGroup bt fbs gbs

/-- The `alignment_data` list built by `compute_alignment` (lines
85–130), before the timestamp re-sort: iterate the film groups in key
order, aligning each against the same-type game group. -/
def computeAlignmentRows (films : List FilmBeat) (games : List GameBeat) : List Row :=
  (groupByFirst (fun fb => fb.type) films).flatMap
    (fun g => alignGroup g.1 g.2 (groupGet g.1 (groupByFirst (fun gb => gb.type) games)))

/-- Python's `str.split(':')` over characters: the list of colon-free
segments (an empty string yields one empty segment). -/
def splitOnColon : List Char → List (List Char)
  | [] => [[]]
  | c :: cs =>
    if c = ':' then [] :: splitOnColon cs
    else match splitOnColon cs with
      | [] => [[c]]
      | s :: rest => (c :: s) :: rest

/-- `ts.split(':')` as a list of strings. -/
def pySplitColon (ts : String) : List String :=
  (splitOnColon ts.toList).map (fun seg => (⟨seg⟩ : String))

/-- `StructuralAlignment._timestamp_to_minutes` (lines 172–181):
`H:M:S` and `M:S` convert exactly; any other colon-split length yields
`0.0`; non-integer components raise `ValueError` (modelled as
`Except.error`). -/
def timestampToMinutes (ts : String) : Except String ℚ :=
  match pySplitColon ts with
  | [p0, p1, p2] => do
    let h ← pyInt p0
    let m ← pyInt p1
    let s ← pyInt p2
    pure ((h : ℚ) * 60 + (m : ℚ) + (s : ℚ) / 60)
  | [p0, p1] => do
    let m ← pyInt p0
    let s ← pyInt p1
    pure ((m : ℚ) + (s : ℚ) / 60)
  | _ => pure 0

/-- `compute_alignment` (lines 78–139): build the rows, then re-sort by
the film timestamp in minutes.  With no rows, `pd.DataFrame([])` (line
131) has no columns at all, so the column access
`alignment_table['Film Timestamp']` on line 134 raises `KeyError`
(modelled as `Except.error`).  `sort_values` uses pandas' unstable
quicksort, so only the sortedness and multiset of rows are meaningful —
insertion sort realises one such order. -/
def computeAlignment (films : List FilmBeat) (games : List GameBeat) : Except String (List Row) := do
  let rows := computeAlignmentRows films games
  if rows.isEmpty then Except.error "KeyError: Film Timestamp"
  else do
    let keyed ← rows.mapM (fun r => do
      let k ← timestampToMinutes r.filmTimestamp
      pure (k, r))
    pure ((List.insertionSort (fun a b => a.1 ≤ b.1) keyed).map Prod.snd)

/-- `df['Matched'].sum()`. -/
def countMatched (tbl : List Row) : ℕ := tbl.countP (fun r => r.matched)

/-- `StructuralAlignment.calculate_alignment_score` (lines 183–198):
`alignment_table['Matched'].sum()` (line 193) raises `KeyError` on the
column-less empty table before the `total > 0` guard is ever consulted;
on a nonempty table the score is matched over total times 100 (the
written `else 0.0` branch survives only as dead code). -/
def calculateAlignmentScore (tbl : List Row) : Except String ℚ :=
  if tbl.isEmpty then Except.error "KeyError: Matched"
  else if 0 < tbl.length then
    Except.ok ((countMatched tbl : ℚ) / (tbl.length : ℚ) * 100)
  else Except.ok 0

/-- The claim-side alignment table: for every structural type in order of
first appearance among the reference beats, the same-type reference beats
are matched FIFO against the same-type subject beats — the first `|G|`
film beats of the type pair up with the game beats positionally, the rest
are unmatched. -/
def alignClaim (films : List FilmBeat) (games : List GameBeat) : List Row :=
  (dedupFirst (films.map (fun fb => fb.type))).flatMap (fun t =>
    let F := films.filter (fun fb => fb.type = t)
    let G := games.filter (fun gb => gb.type = t)
    (F.zip G).map (fun p => rowMatched t p.1 p.2)
      ++ (F.drop G.length).map (fun fb => rowUnmatched t fb))

/-! ### `SemanticNetwork` (src/src/experiment_3_network.py) -/

/-- `itertools.combinations(l, 2)` in generation order. -/
def pyCombinations2 {α : Type} : List α → List (α × α)
  | [] => []
  | x :: xs => xs.map (fun y => (x, y)) ++ pyCombinations2 xs

/-- Code-point lexicographic comparison over character lists (Python's
string `<`). -/
def charListLt : List Char → List Char → Bool
  | [], [] => false
  | [], _ :: _ => true
  | _ :: _, [] => false
  | a :: as, b :: bs =>
    if a < b then true
    else if b < a then false
    else charListLt as bs

/-- Python's `a < b` on strings. -/
def pyStrLt (a b : String) : Bool := charListLt a.toList b.toList

/-- `tuple(sorted([a, b]))`: the canonical (lexicographically ordered)
form of an unordered keyword pair. -/
def canonPair (a b : String) : String × String := if pyStrLt b a then (b, a) else (a, b)

/-- `[kw for kw in all_keywords if kw in text]`
(`experiment_3_network.py` line 112). -/
def presentKeywords (allkw : List String) (text : String) : List String :=
  allkw.filter (fun kw => pyIn kw text)

/-- All canonical pairs generated by `process_dialogues` (lines 105–118),
one occurrence per `self.co_occurrence[pair] += 1`; the defaultdict is
the multiset of this list. -/
def coocPairsAll (allkw : List String) (texts : List String) : List (String × String) :=
  texts.flatMap (fun text =>
    (pyCombinations2 (presentKeywords allkw text)).map (fun q => canonPair q.1 q.2))

/-- The co-occurrence count of a canonical pair (0 for pairs absent from
the defaultdict). -/
def coocCount (allkw : List String) (texts : List String) (p : String × String) : ℕ :=
  (coocPairsAll allkw texts).count p

/-- The weighted edge list of `build_network` (lines 141–143): iterate
the co-occurrence dict entries (keys in first-insertion order, each with
its total count) and keep those at or above the threshold. -/
def networkEdges (entities themes : List String) (texts : List String) (t : ℕ) :
    List ((String × String) × ℕ) :=
  let allkw := entities ++ themes
  (dedupFirst (coocPairsAll allkw texts)).filterMap (fun p =>
    let c := coocCount allkw texts p
    if t ≤ c then some (p, c) else none)

/-- A node is incident to some edge of the edge list. -/
def hasIncidentEdge (edges : List ((String × String) × ℕ)) (n : String) : Bool :=
  edges.any (fun e => e.1.1 = n || e.1.2 = n)

/-- The node set of `build_network` after `remove_nodes_from(isolates)`
(lines 134–147): every configured entity/theme keyword that kept at least
one incident edge. -/
def networkNodes (entities themes : List String) (texts : List String) (t : ℕ) : List String :=
  (dedupFirst (entities ++ themes)).filter
    (fun n => hasIncidentEdge (networkEdges entities themes texts t) n)

/-- The `node_type` attribute (entities added first, themes second, so a
keyword listed in both ends up `theme`, as in `load_keywords`/lines
135–138). -/
def nodeTypeOf (themes : List String) (n : String) : String :=
  if themes.contains n then "theme" else "entity"

/-- The graph has an edge whose canonical endpoint pair is
`canonPair a b`. -/
def hasEdgeBetween (entities themes : List String) (texts : List String) (t : ℕ)
    (a b : String) : Bool :=
  (networkEdges entities themes texts t).any (fun e => e.1 = canonPair a b)

/-! ### `MotifEvolution` (src/src/experiment_4_motif.py) -/

/-- A dialogue record as produced by `extract_all_dialogue`
(the fields `extract_instances` reads). -/
structure MDialogue where
  mapId : ℤ
  mapName : String
  eventId : ℤ
  line : ℕ
  text : String
  deriving DecidableEq, Repr

/-- One motif instance (`experiment_4_motif.py` lines 118–128). -/
structure MotifInstance where
  mapId : ℤ
  mapName : String
  eventId : ℤ
  line : ℕ
  text : String
  arc : String
  scores : List (String × ℕ)
  dominant : String
  total : ℕ
  deriving DecidableEq, Repr

/-- The per-category context scores (lines 103–106): for each configured
category, the number of its keywords occurring as substrings of the
text. -/
def scoreContexts (contexts : List (String × List String)) (text : String) : List (String × ℕ) :=
  contexts.map (fun ck => (ck.1, ck.2.countP (fun kw => pyIn kw text)))

/-- `sum(scores.values())`. -/
def totalScore (scores : List (String × ℕ)) : ℕ := (scores.map Prod.snd).sum

/-- Python's `max(scores, key=scores.get)` fold: scan left to right,
replacing the current best only on a strictly larger score, so the first
maximal key wins ties. -/
def pyMaxBySnd : (String × ℕ) → List (String × ℕ) → String × ℕ
  | b, [] => b
  | b, y :: ys => pyMaxBySnd (if y.2 > b.2 then y else b) ys

/-- The dominant-context computation (lines 109–113): the argmax key when
some score is positive, `neutral` otherwise. -/
def dominantContext (contexts : List (String × List String)) (text : String) : String :=
  let scores := scoreContexts contexts text
  if 0 < totalScore scores then
    match scores with
    | [] => "neutral"   -- unreachable: a positive total needs a category
    | s :: rest => (pyMaxBySnd s rest).1
  else "neutral"

/-- `MotifEvolution._map_to_arc` (lines 133–162). -/
def mapToArc (mapId : ℤ) : String :=
  if mapId ≤ 10 then "1.1 (Camp)"
  else if mapId ≤ 30 then "1.2 (Journey)"
  else if mapId ≤ 45 then "1.3 (Grandmother)"
  else if mapId ≤ 100 then "2.x (Cinderella)"
  else "3.x (Snow White)"

/-- `text[:150]`. -/
def truncate150 (s : String) : String := ⟨s.toList.take 150⟩

/-- The instance dictionary appended for one motif-bearing dialogue
(lines 103–128). -/
def mkInstance (contexts : List (String × List String)) (d : MDialogue) : MotifInstance :=
  let scores := scoreContexts contexts d.text
  { mapId := d.mapId, mapName := d.mapName, eventId := d.eventId, line := d.line,
    text := truncate150 d.text, arc := mapToArc d.mapId,
    scores := scores, dominant := dominantContext contexts d.text,
    total := totalScore scores }

/-- `MotifEvolution.extract_instances` (lines 81–131) over the dialogue
list: dialogues without the motif substring are skipped (`continue`). -/
def extractInstances (motif : String) (contexts : List (String × List String)) :
    List MDialogue → List MotifInstance
  | [] => []
  | d :: ds =>
    if pyIn motif d.text then mkInstance contexts d :: extractInstances motif contexts ds
    else extractInstances motif contexts ds

/-- The maximum score of a score list (`0` on the empty list). -/
def maxSnd (l : List (String × ℕ)) : ℕ := (l.map Prod.snd).foldr Nat.max 0

/-- The first score entry attaining the maximum. -/
def argmaxFirst (l : List (String × ℕ)) : Option (String × ℕ) :=
  l.find? (fun y => y.2 = maxSnd l)

/-- The claim-side dominant context: `neutral` exactly when all category
scores are 0, otherwise the argmax category with ties broken by
category-declaration order (the first entry attaining the maximum). -/
def claimDominant (contexts : List (String × List String)) (text : String) : String :=
  let scores := scoreContexts contexts text
  if scores.all (fun y => y.2 = 0) then "neutral"
  else ((argmaxFirst scores).map Prod.fst).getD "neutral"

/-- The eleven normalized categories (`COMMAND_TYPES` keys). -/
def normCategories : List String :=
  ["Text", "Battle", "Logic", "Navigation", "Party", "Audio", "Visual", "Message", "Common", "Wait", "Other"]

/-- The map parsed from the spec's six-command example dump (one map
`Camp`, one event, three Text commands and one Battle command). -/
def c5ExampleMap : PMap :=
  { id := 1, name := "Camp", events := [{ id := 1, name := "", commands := [
    { type := "Text", normalizedType := "Text", line := 4, content := "a", raw := "@>Text: a" },
    { type := "Text", normalizedType := "Text", line := 5, content := "b", raw := "@>Text: b" },
    { type := "Text", normalizedType := "Text", line := 6, content := "c", raw := "@>Text: c" },
    { type := "Battle Processing", normalizedType := "Battle", line := 7, content := "x",
      raw := "@>Battle Processing: x" }] }] }

/-- A parsed map with one Text and two Battle commands, whose exact
density 1/3 is not representable in four decimals. -/
def c3CounterMap : PMap :=
  { id := 1, name := "", events := [{ id := 1, name := "", commands := [
    { type := "Text", normalizedType := "Text", line := 3, content := "a", raw := "@>Text: a" },
    { type := "Battle Processing", normalizedType := "Battle", line := 4, content := "x",
      raw := "@>Battle Processing: x" },
    { type := "Battle Processing", normalizedType := "Battle", line := 5, content := "y",
      raw := "@>Battle Processing: y" }] }] }

/-- The spec example's film beat (`heroic_act` at 00:10:00). -/
def c4Film : FilmBeat :=
  { type := "heroic_act", timestamp := "00:10:00",
    description := "soldier kills tank" }

/-- The spec example's same-type game beat sharing the word `tank`. -/
def c4Game : GameBeat :=
  { type := "heroic_act", description := "rebel destroys tank",
    mapId := 5, eventId := 2, line := 10 }

/-! ### Helper lemmas -/

section UtilLemmas

theorem mem_dedupFirst {α : Type} [DecidableEq α] {x : α} :
    ∀ {l : List α}, x ∈ dedupFirst l ↔ x ∈ l := by
  intro l
  induction l with
  | nil => simp [dedupFirst]
  | cons a as ih =>
    simp only [dedupFirst, List.mem_cons, List.mem_filter]
    constructor
    · rintro (rfl | ⟨hx, _⟩)
      · exact .inl rfl
      · exact .inr (ih.mp hx)
    · rintro (rfl | hx)
      · exact .inl rfl
      · by_cases hxa : x = a
        · exact .inl hxa
        · exact .inr ⟨ih.mpr hx, by simpa using hxa⟩

theorem nodup_dedupFirst {α : Type} [DecidableEq α] :
    ∀ (l : List α), (dedupFirst l).Nodup := by
  intro l
  induction l with
  | nil => simp [dedupFirst]
  | cons a as ih =>
    simp only [dedupFirst, List.nodup_cons]
    refine ⟨fun h => ?_, ih.filter _⟩
    exact (by simpa using (List.mem_filter.mp h).2 : a ≠ a) rfl

theorem mem_of_mem_modifyAt {α : Type} {f : α → α} :
    ∀ {i : ℕ} {l : List α} {x : α}, x ∈ modifyAt f i l → x ∈ l ∨ ∃ y ∈ l, x = f y := by
  intro i
  induction i with
  | zero =>
    intro l x hx
    cases l with
    | nil => simp [modifyAt] at hx
    | cons a as =>
      simp only [modifyAt, List.mem_cons] at hx
      rcases hx with rfl | hx
      · exact .inr ⟨a, by simp, rfl⟩
      · exact .inl (List.mem_cons_of_mem _ hx)
  | succ n ih =>
    intro l x hx
    cases l with
    | nil => simp [modifyAt] at hx
    | cons a as =>
      simp only [modifyAt, List.mem_cons] at hx
      rcases hx with rfl | hx
      · exact .inl (List.mem_cons_self _ _)
      · rcases ih hx with h | ⟨y, hy, rfl⟩
        · exact .inl (List.mem_cons_of_mem _ h)
        · exact .inr ⟨y, List.mem_cons_of_mem _ hy, rfl⟩

theorem dropWhile_append_singleton {c : Char} (hc : ¬ isWS c) :
    ∀ (v : List Char), (v ++ [c]).dropWhile isWS = v.dropWhile isWS ++ [c] := by
  intro v
  induction v with
  | nil => simp [List.dropWhile, hc]
  | cons a v ih =>
    by_cases ha : isWS a
    · simp [List.dropWhile, ha, ih]
    · simp [List.dropWhile, ha]

/-- Stripping a list whose head is a non-whitespace character keeps that
head in place. -/
theorem stripList_cons_head {c : Char} (hc : ¬ isWS c) (t : List Char) :
    ∃ u, stripList (c :: t) = c :: u := by
  have hdrop : (c :: t).dropWhile isWS = c :: t := by simp [List.dropWhile, hc]
  have hrev : (c :: t).reverse = t.reverse ++ [c] := by simp
  unfold stripList rstripWS
  rw [hdrop, hrev, dropWhile_append_singleton hc]
  exact ⟨(t.reverse.dropWhile isWS).reverse, by simp⟩

/-- A list starting with `a :: s` has head `a`. -/
theorem head_of_startsWithList {a : Char} {s l : List Char}
    (h : startsWithList (a :: s) l = true) : ∃ t, l = a :: t := by
  cases l with
  | nil => simp [startsWithList] at h
  | cons b l' =>
    simp only [startsWithList, Bool.and_eq_true, decide_eq_true_eq] at h
    exact ⟨l', by rw [h.1]⟩

/-- Two initial segments of a common list have equal heads. -/
theorem startsWithList_head_eq {a b : Char} {s t l : List Char}
    (ha : startsWithList (a :: s) l = true)
    (hb : startsWithList (b :: t) l = true) : a = b := by
  rcases head_of_startsWithList ha with ⟨u, rfl⟩
  simp only [startsWithList, Bool.and_eq_true, decide_eq_true_eq] at hb
  exact hb.1.symm

/-- A raw line starting (unstripped) with non-whitespace `d` cannot strip
to a list whose head is a different character `c`. -/
theorem strip_head_clash {c d : Char} {u t l : List Char}
    (hcd : c ≠ d) (hd : ¬ isWS d)
    (hstrip : stripList l = c :: u)
    (hsw : startsWithList (d :: t) l = true) : False := by
  rcases head_of_startsWithList hsw with ⟨r, rfl⟩
  rcases stripList_cons_head hd r with ⟨u', hu'⟩
  rw [hstrip] at hu'
  exact hcd (by injection hu')

end UtilLemmas

/-- A marker whose head is a non-whitespace character other than the head
of the stripped line can never be a raw prefix of that line. -/
theorem startsWith_marker_false {l u p : List Char} {c d : Char}
    (hstrip : stripList l = c :: u) (hp : p.head? = some d)
    (hcd : c ≠ d) (hd : ¬ isWS d) : startsWithList p l = false := by
  cases p with
  | nil => simp at hp
  | cons a pt =>
    simp only [List.head?_cons, Option.some.injEq] at hp
    subst hp
    cases hsw : startsWithList (a :: pt) l
    · rfl
    · exact (strip_head_clash hcd hd hstrip hsw).elim




/-- `_normalize_type` returns the first key of the table whose keyword
list matches, or `Other`. -/
theorem normalizeTypeAux_mem (s : String) :
    ∀ (tbl : List (String × List String)), normalizeTypeAux s tbl ∈ tbl.map Prod.fst ++ ["Other"] := by
  intro tbl
  induction tbl with
  | nil => simp [normalizeTypeAux]
  | cons e rest ih =>
    simp only [normalizeTypeAux]
    split
    · simp
    · simp only [List.map_cons, List.cons_append, List.mem_cons]
      exact .inr (by simpa using ih)

/-- Every normalized category is one of the eleven table keys. -/
theorem normalizeType_mem (s : String) : normalizeType s ∈ normCategories := by
  have h := normalizeTypeAux_mem s COMMAND_TYPES
  unfold normalizeType
  rcases List.mem_append.mp h with h | h
  · simpa [COMMAND_TYPES, normCategories] using h
  · simp only [List.mem_singleton] at h
    rw [h]
    decide

/-- The six density buckets partition the eleven categories: the ten
bucketed counts sum to the list length whenever every element's category
is one of the eleven. -/
theorem countP_partition (L : List Command)
    (hL : ∀ c ∈ L, c.normalizedType ∈ normCategories) :
    L.countP (fun c => c.normalizedType = "Text")
      + (L.countP (fun c => c.normalizedType = "Battle") + L.countP (fun c => c.normalizedType = "Common"))
      + L.countP (fun c => c.normalizedType = "Logic")
      + L.countP (fun c => c.normalizedType = "Navigation")
      + (L.countP (fun c => c.normalizedType = "Visual") + L.countP (fun c => c.normalizedType = "Audio"))
      + (L.countP (fun c => c.normalizedType = "Other") + L.countP (fun c => c.normalizedType = "Message")
          + L.countP (fun c => c.normalizedType = "Wait") + L.countP (fun c => c.normalizedType = "Party"))
      = L.length := by
  induction L with
  | nil => simp
  | cons a L ih =>
    have ha := hL a (List.mem_cons_self _ _)
    have ih2 := ih (fun c hc => hL c (List.mem_cons_of_mem _ hc))
    simp only [normCategories, List.mem_cons, List.not_mem_nil, or_false] at ha
    simp only [List.countP_cons, List.length_cons]
    rcases ha with h | h | h | h | h | h | h | h | h | h | h <;>
      simp only [h, decide_eq_true_eq, String.reduceEq, reduceIte] <;> omega

/-- Round-half-even is nonnegative on nonnegative input. -/
theorem roundHE_nonneg {q : ℚ} (h : 0 ≤ q) : 0 ≤ roundHalfEven q := by
  unfold roundHalfEven
  have hf : (0 : ℤ) ≤ ⌊q⌋ := Int.floor_nonneg.mpr h
  split_ifs <;> omega

/-- Round-half-even never exceeds an integer upper bound of its input. -/
theorem roundHE_le {q : ℚ} {B : ℤ} (h : q ≤ (B : ℚ)) : roundHalfEven q ≤ B := by
  have hfB : ⌊q⌋ ≤ B := (Int.floor_le_floor h).trans_eq (Int.floor_intCast B)
  unfold roundHalfEven
  split_ifs with h1 h2 h3
  · exact hfB
  · rcases lt_or_eq_of_le hfB with hlt | heq
    · omega
    · exfalso
      have hq : q ≤ (⌊q⌋ : ℚ) := by rw [heq]; exact_mod_cast h
      linarith
  · exact hfB
  · rcases lt_or_eq_of_le hfB with hlt | heq
    · omega
    · exfalso
      have hq : q ≤ (⌊q⌋ : ℚ) := by rw [heq]; exact_mod_cast h
      push_neg at h1
      linarith

/-- `round(q, 4)` is nonnegative on nonnegative input. -/
theorem round4_nonneg {q : ℚ} (h : 0 ≤ q) : 0 ≤ round4 q := by
  unfold round4
  have h1 : (0 : ℤ) ≤ roundHalfEven (q * 10000) := roundHE_nonneg (by positivity)
  have h2 : (0 : ℚ) ≤ (roundHalfEven (q * 10000) : ℚ) := by exact_mod_cast h1
  positivity

/-- `round(q, 4)` stays at most 1 when the input is. -/
theorem round4_le_one {q : ℚ} (h : q ≤ 1) : round4 q ≤ 1 := by
  unfold round4
  have h1 : roundHalfEven (q * 10000) ≤ (10000 : ℤ) := by
    refine roundHE_le ?_
    push_cast
    linarith
  rw [div_le_one (by norm_num)]
  exact_mod_cast h1

theorem mem_of_mem_modifyLast {α : Type} {f : α → α} :
    ∀ {l : List α} {x : α}, x ∈ modifyLast f l → x ∈ l ∨ ∃ y ∈ l, x = f y := by
  intro l
  induction l with
  | nil => intro x hx; simp [modifyLast] at hx
  | cons a as ih =>
    intro x hx
    cases as with
    | nil =>
      simp only [modifyLast, List.mem_singleton] at hx
      exact .inr ⟨a, by simp, hx⟩
    | cons b bs =>
      simp only [modifyLast, List.mem_cons] at hx
      rcases hx with rfl | hx
      · exact .inl (List.mem_cons_self _ _)
      · rcases ih hx with h | ⟨y, hy, rfl⟩
        · exact .inl (List.mem_cons_of_mem _ h)
        · exact .inr ⟨y, List.mem_cons_of_mem _ hy, rfl⟩

/-- Every command ever placed in the state by one `parse_file` step
carries the normalization of its own raw type. -/
theorem processLine_wf {st st' : ParseState} {n : ℕ} {line : List Char}
    (h : processLine st n line = Except.ok st') (hwf : mapsWF st.maps) : mapsWF st'.maps := by
  unfold processLine at h
  split at h
  · cases hp : pyInt ⟨splitSeg1 line⟩ with
    | error e => rw [hp] at h; exact absurd h (by simp [Except.bind])
    | ok k =>
      rw [hp] at h
      injection h with h
      subst h
      intro m hm e he c hc
      rcases List.mem_append.mp hm with hm | hm
      · exact hwf m hm e he c hc
      · simp only [List.mem_singleton] at hm
        subst hm
        simp at he
  · split at h
    · split at h
      · injection h with h; subst h
        intro m hm e he c hc
        rcases mem_of_mem_modifyAt hm with hm | ⟨y, hy, rfl⟩
        · exact hwf m hm e he c hc
        · exact hwf y hy e he c hc
      · injection h with h; subst h; exact hwf
    · split at h
      · split at h
        · cases hp : pyInt ⟨splitSeg1 line⟩ with
          | error e0 => rw [hp] at h; exact absurd h (by simp [Except.bind])
          | ok k =>
            rw [hp] at h
            injection h with h; subst h
            intro m hm e he c hc
            rcases mem_of_mem_modifyAt hm with hm | ⟨y, hy, rfl⟩
            · exact hwf m hm e he c hc
            · rcases List.mem_append.mp he with he | he
              · exact hwf y hy e he c hc
              · simp only [List.mem_singleton] at he; subst he; simp at hc
        · injection h with h; subst h; exact hwf
      · split at h
        · split at h
          · injection h with h; subst h
            intro m hm e he c hc
            rcases mem_of_mem_modifyAt hm with hm | ⟨y, hy, rfl⟩
            · exact hwf m hm e he c hc
            · rcases mem_of_mem_modifyAt he with he | ⟨z, hz, rfl⟩
              · exact hwf y hy e he c hc
              · exact hwf y hy z hz c hc
          · injection h with h; subst h; exact hwf
        · split at h
          · split at h
            · injection h with h; subst h
              intro m hm e he c hc
              rcases mem_of_mem_modifyAt hm with hm | ⟨y, hy, rfl⟩
              · exact hwf m hm e he c hc
              · rcases mem_of_mem_modifyAt he with he | ⟨z, hz, rfl⟩
                · exact hwf y hy e he c hc
                · rcases List.mem_append.mp hc with hc | hc
                  · exact hwf y hy z hz c hc
                  · simp only [List.mem_singleton] at hc; subst hc; rfl
            · injection h with h; subst h; exact hwf
          · split at h
            · split at h
              · split at h
                · split at h
                  · injection h with h; subst h
                    intro m hm e he c hc
                    rcases mem_of_mem_modifyAt hm with hm | ⟨y, hy, rfl⟩
                    · exact hwf m hm e he c hc
                    · rcases mem_of_mem_modifyAt he with he | ⟨z, hz, rfl⟩
                      · exact hwf y hy e he c hc
                      · rcases mem_of_mem_modifyLast hc with hc | ⟨w, hw, rfl⟩
                        · exact hwf y hy z hz c hc
                        · exact hwf y hy z hz w hw
                  · injection h with h; subst h; exact hwf
                · injection h with h; subst h; exact hwf
              · injection h with h; subst h; exact hwf
            · injection h with h; subst h; exact hwf

/-- The well-formedness invariant lifted over the whole line scan. -/
theorem parseLines_wf :
    ∀ (ls : List (List Char)) (st : ParseState) (n : ℕ) (maps : List PMap),
      parseLines st n ls = Except.ok maps → mapsWF st.maps → mapsWF maps := by
  intro ls
  induction ls with
  | nil =>
    intro st n maps h hwf
    unfold parseLines at h
    injection h with h
    subst h
    exact hwf
  | cons l ls ih =>
    intro st n maps h hwf
    unfold parseLines at h
    cases hp : processLine st n l with
    | error e => rw [hp] at h; exact Except.noConfusion h
    | ok st' =>
      rw [hp] at h
      exact ih st' (n + 1) maps h (processLine_wf hp hwf)

/-- Every command of a successfully parsed file stores the normalization
of its own raw type. -/
theorem parseFile_wf {lines : List String} {maps : List PMap}
    (h : parseFile lines = Except.ok maps) : mapsWF maps :=
  parseLines_wf _ _ _ _ h (fun m hm => absurd hm (List.not_mem_nil m))

/-! ### Claim C6: category normalization -/

/-- C6: the normalized category of every Command is a deterministic
function of its raw type label alone — `_normalize_type` agrees with the
claim-side reading (fixed category/keyword-list table, first match wins
in table-declaration order Text, Battle, Logic, Navigation, Party, Audio,
Visual, Message, Common, Wait, default `Other`), and every command of a
parsed file carries exactly that value. -/
theorem c6_normalized_category :
    (∀ s : String, normalizeType s = claimNormalize s)
  ∧ (∀ (lines : List String) (maps : List PMap), parseFile lines = Except.ok maps →
        ∀ m ∈ maps, ∀ e ∈ m.events, ∀ c ∈ e.commands, c.normalizedType = claimNormalize c.type) := by
  have heq : ∀ s : String, normalizeType s = claimNormalize s := by
    intro s
    simp only [normalizeType, normalizeTypeAux, COMMAND_TYPES, claimNormalize,
      List.any_cons, List.any_nil, Bool.or_false, Bool.or_assoc, ite_self]
  refine ⟨heq, ?_⟩
  intro lines maps h m hm e he c hc
  rw [(parseFile_wf h) m hm e he c hc]
  exact heq c.type

/-- C6 witness: the parsed `@>Battle Processing: x` command stores
`Battle`, the claim-side normalization of its raw label. -/
theorem c6_normalized_category_witness :
    ({ type := "Battle Processing", normalizedType := "Battle", line := 3, content := "x",
       raw := "@>Battle Processing: x" } : Command).normalizedType
      = claimNormalize "Battle Processing" :=
  c6_normalized_category.2 ["Map ID: 1", "Event ID: 1", "@>Battle Processing: x"]
    [{ id := 1, name := "",
       events := [{ id := 1, name := "",
                    commands := [{ type := "Battle Processing", normalizedType := "Battle",
                                   line := 3, content := "x", raw := "@>Battle Processing: x" }] }] }]
    (by rfl)
    { id := 1, name := "",
      events := [{ id := 1, name := "",
                   commands := [{ type := "Battle Processing", normalizedType := "Battle",
                                  line := 3, content := "x", raw := "@>Battle Processing: x" }] }] }
    (List.mem_singleton.mpr rfl)
    { id := 1, name := "",
      commands := [{ type := "Battle Processing", normalizedType := "Battle",
                     line := 3, content := "x", raw := "@>Battle Processing: x" }] }
    (List.mem_singleton.mpr rfl)
    { type := "Battle Processing", normalizedType := "Battle",
      line := 3, content := "x", raw := "@>Battle Processing: x" }
    (List.mem_singleton.mpr rfl)

/-! ### Claims C1, C2, C10: the `parse_file` state machine -/

/-- C1 counterexample: in `parse_file`, a `Map ID:` line does *not* reset
the current event — in the input below, the `@>Text: hello` command on
line 4, which follows the `Map ID: 2` header, is attached to event 1 of
the previously parsed map 1 (and map 2 stays empty), contradicting the
claim that no command line between a map header and the next `Event ID:`
header attaches to an event of a previously parsed map. -/
theorem c1_map_header_counterexample :
    ((parseFile ["Map ID: 1", "Event ID: 1", "Map ID: 2", "@>Text: hello"]).map
      (fun maps => maps.map (fun m =>
        (m.id, m.events.map (fun e => (e.id, e.commands.map (fun c => c.line))))))) =
    Except.ok [(1, [(1, [4])]), (2, [])] := by rfl

/-- C1 (amended): a line beginning with the map-id marker whose id parses
starts a new Map with empty name and event list, appends it to the map
list, and repoints `current_map` at it — but leaves `current_event`
unchanged (the source never resets it to null). -/
theorem c1_map_header_amended (st : ParseState) (n : ℕ) (line : List Char) (k : ℤ)
    (hpre : startsWithList ("Map ID:".toList) line = true)
    (hint : pyInt ⟨splitSeg1 line⟩ = Except.ok k) :
    processLine st n line =
      Except.ok { maps := st.maps ++ [{ id := k, name := "", events := [] }],
                  curMap := some st.maps.length,
                  curEvent := st.curEvent } := by
  unfold processLine
  rw [hpre, hint]
  rfl

/-- C1 (amended) witness: a concrete map-header step, with the
pre-existing `current_event` reference surviving. -/
theorem c1_map_header_amended_witness :
    processLine { maps := [{ id := 1, name := "", events := [{ id := 3, name := "", commands := [] }] }],
                  curMap := some 0, curEvent := some (0, 0) } 5 ("Map ID: 7".toList)
      = Except.ok { maps := [{ id := 1, name := "", events := [{ id := 3, name := "", commands := [] }] },
                             { id := 7, name := "", events := [] }],
                    curMap := some 1, curEvent := some (0, 0) } :=
  c1_map_header_amended _ 5 ("Map ID: 7".toList) 7 (by rfl) (by rfl)

/-- C2 counterexample: the continuation guard compares the *raw* type
with `'Text'`, not the normalized category — the command `@>Show Text: hi`
has normalized category `Text` (the keyword `Text` occurs in
`Show Text`), yet the following continuation line is dropped: its content
stays `hi` instead of the claimed `hi\nmore`. -/
theorem c2_continuation_counterexample :
    ((parseFile ["Map ID: 1", "Event ID: 1", "@>Show Text: hi", ":    :more"]).map
      (fun maps => maps.map (fun m => m.events.map (fun e =>
        e.commands.map (fun c => (c.type, c.normalizedType, c.content)))))) =
    Except.ok [[[("Show Text", "Text", "hi")]]] := by rfl

/-- C2 (amended): a line whose trimmed form begins with the continuation
marker has its trailing content (after the fixed 6-character prefix
strip) appended, joined by a newline, to the content of the immediately
preceding command exactly when that command's *raw* type is the exact
string `Text`; otherwise the continuation text is silently dropped with
no state change. -/
theorem c2_continuation_amended (st : ParseState) (n : ℕ) (line : List Char)
    (i j : ℕ) (c : Command)
    (hc : startsWithList contMarker (stripList line) = true)
    (hEv : st.curEvent = some (i, j))
    (hlast : (getEvent? st i j).bind (fun e => e.commands.getLast?) = some c) :
    (c.type = "Text" →
      processLine st n line = Except.ok { st with
        maps := modifyAt (fun m => { m with
          events := modifyAt (fun e => { e with
            commands := modifyLast (fun cmd => { cmd with
              content := cmd.content ++ "\n" ++ stripStr ((stripList line).drop 6) }) e.commands }) j m.events }) i st.maps })
    ∧ (c.type ≠ "Text" → processLine st n line = Except.ok st) := by
  obtain ⟨u, hu⟩ := head_of_startsWithList hc
  have h1 : startsWithList ("Map ID:".toList) line = false :=
    startsWith_marker_false hu (by rfl) (by decide) (by decide)
  have h2 : startsWithList ("Map Name:".toList) line = false :=
    startsWith_marker_false hu (by rfl) (by decide) (by decide)
  have h3 : startsWithList ("Event ID:".toList) line = false :=
    startsWith_marker_false hu (by rfl) (by decide) (by decide)
  have h4 : startsWithList ("Event Name:".toList) line = false :=
    startsWith_marker_false hu (by rfl) (by decide) (by decide)
  have h5 : startsWithList ['@', '>'] (stripList line) = false := by rw [hu]; rfl
  constructor
  · intro htype
    unfold processLine
    rw [h1, h2, h3, h4, h5, hc, hEv]
    dsimp only
    rw [hlast]
    dsimp only
    rw [if_pos htype]
    rfl
  · intro htype
    unfold processLine
    rw [h1, h2, h3, h4, h5, hc, hEv]
    dsimp only
    rw [hlast]
    dsimp only
    rw [if_neg htype]
    rfl

/-- C2 (amended) witness: a continuation after a raw `Text` command is
appended with a newline joint. -/
theorem c2_continuation_amended_witness :
    processLine
      { maps := [{ id := 1, name := "",
                   events := [{ id := 1, name := "",
                                commands := [{ type := "Text", normalizedType := "Text",
                                               line := 3, content := "a", raw := "@>Text: a" }] }] }],
        curMap := some 0, curEvent := some (0, 0) } 4 (":    :b".toList)
      = Except.ok
      { maps := [{ id := 1, name := "",
                   events := [{ id := 1, name := "",
                                commands := [{ type := "Text", normalizedType := "Text",
                                               line := 3, content := "a\nb", raw := "@>Text: a" }] }] }],
        curMap := some 0, curEvent := some (0, 0) } := by
  rw [(c2_continuation_amended _ 4 (":    :b".toList) 0 0
        { type := "Text", normalizedType := "Text", line := 3, content := "a", raw := "@>Text: a" }
        (by rfl) rfl (by rfl)).1 rfl]
  rfl

/-- C10: `parse_file` never fails on command or continuation lines that
lack an attachment target: a command-marker line with no current event, a
continuation-marker line with no current event, and a continuation-marker
line whose current event has an empty command list are all silently
ignored — the state is returned unchanged and no error is raised. -/
theorem c10_orphan_lines_ignored :
    (∀ (st : ParseState) (n : ℕ) (line : List Char),
        startsWithList ['@', '>'] (stripList line) = true → st.curEvent = none →
        processLine st n line = Except.ok st)
  ∧ (∀ (st : ParseState) (n : ℕ) (line : List Char),
        startsWithList contMarker (stripList line) = true → st.curEvent = none →
        processLine st n line = Except.ok st)
  ∧ (∀ (st : ParseState) (n : ℕ) (line : List Char) (i j : ℕ) (e : PEvent),
        startsWithList contMarker (stripList line) = true → st.curEvent = some (i, j) →
        getEvent? st i j = some e → e.commands = [] →
        processLine st n line = Except.ok st) := by
  refine ⟨?_, ?_, ?_⟩
  · intro st n line ha hEv
    obtain ⟨u, hu⟩ := head_of_startsWithList ha
    have h1 : startsWithList ("Map ID:".toList) line = false :=
      startsWith_marker_false hu (by rfl) (by decide) (by decide)
    have h2 : startsWithList ("Map Name:".toList) line = false :=
      startsWith_marker_false hu (by rfl) (by decide) (by decide)
    have h3 : startsWithList ("Event ID:".toList) line = false :=
      startsWith_marker_false hu (by rfl) (by decide) (by decide)
    have h4 : startsWithList ("Event Name:".toList) line = false :=
      startsWith_marker_false hu (by rfl) (by decide) (by decide)
    have h6 : startsWithList contMarker (stripList line) = false := by rw [hu]; rfl
    unfold processLine
    rw [h1, h2, h3, h4, ha, h6, hEv]
    rfl
  · intro st n line hb hEv
    obtain ⟨u, hu⟩ := head_of_startsWithList hb
    have h1 : startsWithList ("Map ID:".toList) line = false :=
      startsWith_marker_false hu (by rfl) (by decide) (by decide)
    have h2 : startsWithList ("Map Name:".toList) line = false :=
      startsWith_marker_false hu (by rfl) (by decide) (by decide)
    have h3 : startsWithList ("Event ID:".toList) line = false :=
      startsWith_marker_false hu (by rfl) (by decide) (by decide)
    have h4 : startsWithList ("Event Name:".toList) line = false :=
      startsWith_marker_false hu (by rfl) (by decide) (by decide)
    have h5 : startsWithList ['@', '>'] (stripList line) = false := by rw [hu]; rfl
    unfold processLine
    rw [h1, h2, h3, h4, h5, hb, hEv]
    rfl
  · intro st n line i j e hb hEv he hcmds
    obtain ⟨u, hu⟩ := head_of_startsWithList hb
    have h1 : startsWithList ("Map ID:".toList) line = false :=
      startsWith_marker_false hu (by rfl) (by decide) (by decide)
    have h2 : startsWithList ("Map Name:".toList) line = false :=
      startsWith_marker_false hu (by rfl) (by decide) (by decide)
    have h3 : startsWithList ("Event ID:".toList) line = false :=
      startsWith_marker_false hu (by rfl) (by decide) (by decide)
    have h4 : startsWithList ("Event Name:".toList) line = false :=
      startsWith_marker_false hu (by rfl) (by decide) (by decide)
    have h5 : startsWithList ['@', '>'] (stripList line) = false := by rw [hu]; rfl
    have hbind : (getEvent? st i j).bind (fun e => e.commands.getLast?) = none := by
      rw [he]
      show e.commands.getLast? = none
      rw [hcmds]
      rfl
    unfold processLine
    rw [h1, h2, h3, h4, h5, hb, hEv]
    dsimp only
    rw [hbind]
    rfl

/-- C10 witness: the three orphan cases on concrete states and lines. -/
theorem c10_orphan_lines_ignored_witness :
    processLine initState 1 ("@>Text: x".toList) = Except.ok initState
  ∧ processLine initState 2 (":    :x".toList) = Except.ok initState
  ∧ processLine { maps := [{ id := 1, name := "", events := [{ id := 2, name := "", commands := [] }] }],
                  curMap := some 0, curEvent := some (0, 0) } 3 (":    :x".toList)
      = Except.ok { maps := [{ id := 1, name := "", events := [{ id := 2, name := "", commands := [] }] }],
                    curMap := some 0, curEvent := some (0, 0) } :=
  ⟨c10_orphan_lines_ignored.1 initState 1 _ (by rfl) rfl,
   c10_orphan_lines_ignored.2.1 initState 2 _ (by rfl) rfl,
   c10_orphan_lines_ignored.2.2 _ 3 _ 0 0 { id := 2, name := "", commands := [] }
     (by rfl) rfl (by rfl) rfl⟩


/-! ### Claims C3 and C5: per-map density rows -/

/-- C5: the six per-map bucket counts (dialogue = Text; battle = Battle +
Common; logic = Logic; navigation = Navigation; visual = Visual + Audio;
other = Other + Message + Wait + Party) sum exactly to the map's
`total_commands`, which in turn counts every command of the map exactly
once; on the spec's example dump (one map `Camp`, one event with three
Text commands and one Battle command) the row is dialogue=3, battle=1,
total=4, density=0.75, classification `Story-Heavy`. -/
theorem c5_bucket_sum :
    (∀ (lines : List String) (maps : List PMap), parseFile lines = Except.ok maps →
        ∀ m ∈ maps,
          (countRow m).dialogueCount + (countRow m).battleCount + (countRow m).logicCount
              + (countRow m).navigationCount + (countRow m).visualAudioCount + (countRow m).otherCount
            = (countRow m).totalCommands
          ∧ (countRow m).totalCommands = (allCommands m).length)
  ∧ parseFile ["Map ID: 1", "Map Name: Camp", "Event ID: 1",
               "@>Text: a", "@>Text: b", "@>Text: c", "@>Battle Processing: x"]
      = Except.ok [c5ExampleMap]
  ∧ (countCommandsByMap [c5ExampleMap]).map
      (fun r => (r.mapId, r.mapName, r.dialogueCount, r.battleCount, r.totalCommands))
      = [(1, "Camp", 3, 1, 4)]
  ∧ (countRow c5ExampleMap).classification = "Story-Heavy"
  ∧ (countRow c5ExampleMap).narrativeDensity = 3 / 4 := by
  refine ⟨?_, by rfl, by rfl, ?_, ?_⟩
  · intro lines maps h m hm
    refine ⟨rfl, ?_⟩
    have hwf := parseFile_wf h
    have hL : ∀ c ∈ allCommands m, c.normalizedType ∈ normCategories := by
      intro c hc
      rcases List.mem_flatMap.mp hc with ⟨e, he, hce⟩
      rw [hwf m hm e he c hce]
      exact normalizeType_mem c.type
    exact countP_partition (allCommands m) hL
  · show classifyDensity ((3 : ℚ) / 4) = "Story-Heavy"
    norm_num [classifyDensity]
  · show round4 ((3 : ℚ) / 4) = 3 / 4
    norm_num [round4, roundHalfEven]

/-- C5 witness: the universal part applied to the example dump. -/
theorem c5_bucket_sum_witness :
    (countRow c5ExampleMap).dialogueCount + (countRow c5ExampleMap).battleCount
        + (countRow c5ExampleMap).logicCount + (countRow c5ExampleMap).navigationCount
        + (countRow c5ExampleMap).visualAudioCount + (countRow c5ExampleMap).otherCount
      = (countRow c5ExampleMap).totalCommands
    ∧ (countRow c5ExampleMap).totalCommands = (allCommands c5ExampleMap).length :=
  c5_bucket_sum.1 ["Map ID: 1", "Map Name: Camp", "Event ID: 1",
                   "@>Text: a", "@>Text: b", "@>Text: c", "@>Battle Processing: x"]
    [c5ExampleMap] (by rfl) c5ExampleMap (List.mem_singleton.mpr rfl)

/-- C3 counterexample: the `narrative_density` column is `round(density,
4)`, not `dialogue/total` — a parsed map with 1 Text and 2 Battle
commands has dialogue=1, total=3, but its row stores 0.3333, which
differs from 1/3. -/
theorem c3_density_counterexample :
    parseFile ["Map ID: 1", "Event ID: 1", "@>Text: a", "@>Battle Processing: x", "@>Battle Processing: y"]
      = Except.ok [c3CounterMap]
    ∧ (countRow c3CounterMap).dialogueCount = 1
    ∧ (countRow c3CounterMap).totalCommands = 3
    ∧ (countRow c3CounterMap).narrativeDensity = 3333 / 10000
    ∧ (3333 / 10000 : ℚ) ≠ 1 / 3 := by
  refine ⟨by rfl, by rfl, by rfl, ?_, by norm_num⟩
  show round4 ((1 : ℚ) / 3) = 3333 / 10000
  norm_num [round4, roundHalfEven]

/-- C3 (amended): each map row's `narrative_density` equals
`dialogue/total` rounded to four decimals (0 when total = 0), always lies
in [0, 1]; the classification is a pure function of the *unrounded*
density with the claimed boundary behaviour: density > 0.7 gives
`Story-Heavy`, 0.3 < density ≤ 0.7 gives `Mixed`, density ≤ 0.3 gives
`Combat/Traversal`, in particular exactly 0.3 gives `Combat/Traversal`
and exactly 0.7 gives `Mixed`. -/
theorem c3_density_amended :
    (∀ m : PMap,
        (0 < (countRow m).totalCommands →
            (countRow m).narrativeDensity
              = round4 (((countRow m).dialogueCount : ℚ) / ((countRow m).totalCommands : ℚ))
          ∧ (countRow m).classification
              = classifyDensity (((countRow m).dialogueCount : ℚ) / ((countRow m).totalCommands : ℚ)))
        ∧ ((countRow m).totalCommands = 0 →
            (countRow m).narrativeDensity = 0 ∧ (countRow m).classification = "Combat/Traversal")
        ∧ 0 ≤ (countRow m).narrativeDensity ∧ (countRow m).narrativeDensity ≤ 1)
  ∧ (∀ d : ℚ, 7 / 10 < d → classifyDensity d = "Story-Heavy")
  ∧ (∀ d : ℚ, 3 / 10 < d → d ≤ 7 / 10 → classifyDensity d = "Mixed")
  ∧ (∀ d : ℚ, d ≤ 3 / 10 → classifyDensity d = "Combat/Traversal")
  ∧ classifyDensity (3 / 10) = "Combat/Traversal"
  ∧ classifyDensity (7 / 10) = "Mixed" := by
  have hSH : ∀ d : ℚ, 7 / 10 < d → classifyDensity d = "Story-Heavy" := by
    intro d h
    unfold classifyDensity
    rw [if_pos h]
  have hMix : ∀ d : ℚ, 3 / 10 < d → d ≤ 7 / 10 → classifyDensity d = "Mixed" := by
    intro d h1 h2
    unfold classifyDensity
    rw [if_neg (not_lt.mpr h2), if_pos h1]
  have hCT : ∀ d : ℚ, d ≤ 3 / 10 → classifyDensity d = "Combat/Traversal" := by
    intro d h
    unfold classifyDensity
    rw [if_neg (by linarith : ¬ (7 / 10 : ℚ) < d), if_neg (not_lt.mpr h)]
  refine ⟨?_, hSH, hMix, hCT, hCT _ (by norm_num), hMix _ (by norm_num) (by norm_num)⟩
  intro m
  have hdef : (countRow m).narrativeDensity
      = round4 (if 0 < (countRow m).totalCommands
                then ((countRow m).dialogueCount : ℚ) / ((countRow m).totalCommands : ℚ) else 0) := rfl
  have hcls : (countRow m).classification
      = classifyDensity (if 0 < (countRow m).totalCommands
                then ((countRow m).dialogueCount : ℚ) / ((countRow m).totalCommands : ℚ) else 0) := rfl
  have hgen : ∀ a b c d e f : ℕ, a ≤ a + b + c + d + e + f := by
    intro a b c d e f
    omega
  have hdt : (countRow m).dialogueCount ≤ (countRow m).totalCommands := hgen _ _ _ _ _ _
  refine ⟨?_, ?_, ?_, ?_⟩
  · intro ht
    rw [hdef, hcls, if_pos ht]
    exact ⟨rfl, rfl⟩
  · intro ht
    rw [hdef, hcls, if_neg (by omega)]
    constructor
    · norm_num [round4, roundHalfEven]
    · norm_num [classifyDensity]
  · rw [hdef]
    refine round4_nonneg ?_
    split_ifs with ht
    · positivity
    · exact le_refl 0
  · rw [hdef]
    refine round4_le_one ?_
    split_ifs with ht
    · rw [div_le_one (by exact_mod_cast ht)]
      exact_mod_cast hdt
    · norm_num

/-- C3 (amended) witness: the amended facts evaluated on the 1-Text /
2-Battle map and at the boundary densities. -/
theorem c3_density_amended_witness :
    ((countRow c3CounterMap).narrativeDensity
        = round4 (((countRow c3CounterMap).dialogueCount : ℚ) / ((countRow c3CounterMap).totalCommands : ℚ)))
    ∧ classifyDensity (4 / 5) = "Story-Heavy"
    ∧ classifyDensity (1 / 2) = "Mixed"
    ∧ classifyDensity (1 / 10) = "Combat/Traversal" :=
  ⟨((c3_density_amended.1 c3CounterMap).1 (by decide)).1,
   c3_density_amended.2.1 (4 / 5) (by norm_num),
   c3_density_amended.2.2.1 (1 / 2) (by norm_num) (by norm_num),
   c3_density_amended.2.2.2.1 (1 / 10) (by norm_num)⟩


/-! ### Claim C8: timestamp conversion -/

/-- C8 counterexample: `_timestamp_to_minutes("a:b")` does not return 0 —
the colon-split has two parts, so `int("a")` is attempted and raises
`ValueError` (modelled as `Except.error`), contradicting the claim that
every unparseable timestamp string returns 0 rather than raising. -/
theorem c8_timestamp_counterexample :
    timestampToMinutes "a:b" = Except.error "invalid literal for int: a"
    ∧ timestampToMinutes "a:b" ≠ Except.ok 0 := by
  refine ⟨rfl, fun h => ?_⟩
  rw [show timestampToMinutes "a:b" = Except.error "invalid literal for int: a" from rfl] at h
  exact Except.noConfusion h

/-- C8 (amended): `_timestamp_to_minutes` converts `H:M:S` to
`h*60 + m + s/60` and `M:S` to `m + s/60`; a string whose colon-split has
neither 2 nor 3 parts returns 0; but a 2- or 3-part string with a
non-integer component raises `ValueError` (first failing component wins)
instead of returning 0. -/
theorem c8_timestamp_amended :
    (∀ (ts : String) (p0 p1 p2 : String) (h m s : ℤ),
        pySplitColon ts = [p0, p1, p2] →
        pyInt p0 = Except.ok h → pyInt p1 = Except.ok m → pyInt p2 = Except.ok s →
        timestampToMinutes ts = Except.ok ((h : ℚ) * 60 + (m : ℚ) + (s : ℚ) / 60))
  ∧ (∀ (ts : String) (p0 p1 : String) (m s : ℤ),
        pySplitColon ts = [p0, p1] →
        pyInt p0 = Except.ok m → pyInt p1 = Except.ok s →
        timestampToMinutes ts = Except.ok ((m : ℚ) + (s : ℚ) / 60))
  ∧ (∀ ts : String, (pySplitColon ts).length ≠ 2 → (pySplitColon ts).length ≠ 3 →
        timestampToMinutes ts = Except.ok 0)
  ∧ (∀ (ts : String) (p0 p1 e : String), pySplitColon ts = [p0, p1] →
        pyInt p0 = Except.error e → timestampToMinutes ts = Except.error e)
  ∧ (∀ (ts : String) (p0 p1 e : String) (m : ℤ), pySplitColon ts = [p0, p1] →
        pyInt p0 = Except.ok m → pyInt p1 = Except.error e → timestampToMinutes ts = Except.error e)
  ∧ (∀ (ts : String) (p0 p1 p2 e : String), pySplitColon ts = [p0, p1, p2] →
        pyInt p0 = Except.error e → timestampToMinutes ts = Except.error e) := by
  refine ⟨?_, ?_, ?_, ?_, ?_, ?_⟩
  · intro ts p0 p1 p2 h m s hsplit h0 h1 h2
    unfold timestampToMinutes
    rw [hsplit]
    dsimp only
    rw [h0, h1, h2]
    rfl
  · intro ts p0 p1 m s hsplit h0 h1
    unfold timestampToMinutes
    rw [hsplit]
    dsimp only
    rw [h0, h1]
    rfl
  · intro ts h2 h3
    unfold timestampToMinutes
    rcases hl : pySplitColon ts with _ | ⟨a, _ | ⟨b, _ | ⟨c, _ | ⟨d, tl⟩⟩⟩⟩
    · rfl
    · rfl
    · exact absurd (by rw [hl]; rfl : (pySplitColon ts).length = 2) h2
    · exact absurd (by rw [hl]; rfl : (pySplitColon ts).length = 3) h3
    · rfl
  · intro ts p0 p1 e hsplit h0
    unfold timestampToMinutes
    rw [hsplit]
    dsimp only
    rw [h0]
    rfl
  · intro ts p0 p1 e m hsplit h0 h1
    unfold timestampToMinutes
    rw [hsplit]
    dsimp only
    rw [h0, h1]
    rfl
  · intro ts p0 p1 p2 e hsplit h0
    unfold timestampToMinutes
    rw [hsplit]
    dsimp only
    rw [h0]
    rfl

/-- C8 (amended) witness: `1:02:03` converts to 62.05 minutes, `5:30` to
5.5 minutes, and `not a timestamp` (one colon-split part) yields 0. -/
theorem c8_timestamp_amended_witness :
    timestampToMinutes "1:02:03" = Except.ok (((1 : ℤ) : ℚ) * 60 + ((2 : ℤ) : ℚ) + ((3 : ℤ) : ℚ) / 60)
    ∧ timestampToMinutes "5:30" = Except.ok (((5 : ℤ) : ℚ) + ((30 : ℤ) : ℚ) / 60)
    ∧ timestampToMinutes "not a timestamp" = Except.ok 0 :=
  ⟨c8_timestamp_amended.1 "1:02:03" "1" "02" "03" 1 2 3 (by rfl) (by rfl) (by rfl) (by rfl),
   c8_timestamp_amended.2.1 "5:30" "5" "30" 5 30 (by rfl) (by rfl) (by rfl),
   c8_timestamp_amended.2.2.1 "not a timestamp" (by decide) (by decide)⟩


/-! ### Claim C9: motif context scoring -/

theorem maxSnd_cons (y : String × ℕ) (l : List (String × ℕ)) :
    maxSnd (y :: l) = Nat.max y.2 (maxSnd l) := rfl

/-- A nonempty score list attains its maximum. -/
theorem maxSnd_attained :
    ∀ (l : List (String × ℕ)), l ≠ [] → ∃ z ∈ l, z.2 = maxSnd l := by
  intro l
  induction l with
  | nil => intro h; exact absurd rfl h
  | cons y ys ih =>
    intro _
    cases ys with
    | nil =>
      refine ⟨y, by simp, ?_⟩
      simp [maxSnd]
    | cons z zs =>
      rcases ih (by simp) with ⟨w, hw, hweq⟩
      rcases Nat.le_total (maxSnd (z :: zs)) y.2 with hle | hle
      · refine ⟨y, by simp, ?_⟩
        rw [maxSnd_cons]
        exact (max_eq_left hle).symm
      · refine ⟨w, List.mem_cons_of_mem _ hw, ?_⟩
        rw [maxSnd_cons, hweq]
        exact (max_eq_right hle).symm

/-- Python's `max(..., key=...)` left fold returns the first entry
attaining the maximal score: ties are broken by list position. -/
theorem pyMax_eq_find :
    ∀ (l : List (String × ℕ)) (b : String × ℕ),
      pyMaxBySnd b l = ((b :: l).find? (fun y => y.2 = maxSnd (b :: l))).getD b := by
  intro l
  induction l with
  | nil =>
    intro b
    simp [pyMaxBySnd, maxSnd, List.find?]
  | cons y ys ih =>
    intro b
    show pyMaxBySnd (if y.2 > b.2 then y else b) ys = _
    by_cases hyb : y.2 > b.2
    · rw [if_pos hyb, ih y]
      have hM : maxSnd (b :: y :: ys) = maxSnd (y :: ys) := by
        simp only [maxSnd_cons]
        exact max_eq_right ((le_of_lt hyb).trans (le_max_left _ _))
      have hbfalse : ¬ (b.2 = maxSnd (y :: ys)) := by
        rw [maxSnd_cons]
        have h1 : y.2 ≤ Nat.max y.2 (maxSnd ys) := le_max_left _ _
        omega
      simp only [hM]
      rw [List.find?_cons_of_neg (y :: ys) (by simp only [decide_eq_true_eq]; exact hbfalse)]
      have hsome : (List.find? (fun w => decide (w.2 = maxSnd (y :: ys))) (y :: ys)).isSome = true := by
        apply List.find?_isSome.mpr
        rcases maxSnd_attained (y :: ys) (by simp) with ⟨z, hzmem, hzeq⟩
        exact ⟨z, hzmem, by simpa using hzeq⟩
      rcases Option.isSome_iff_exists.mp hsome with ⟨z, hz⟩
      rw [hz]
      rfl
    · rw [if_neg hyb, ih b]
      have hyle : y.2 ≤ b.2 := by omega
      have hM : maxSnd (b :: y :: ys) = maxSnd (b :: ys) := by
        simp only [maxSnd_cons]
        show max b.2 (max y.2 (maxSnd ys)) = max b.2 (maxSnd ys)
        rw [← max_assoc, max_eq_left hyle]
      simp only [hM]
      by_cases hb : b.2 = maxSnd (b :: ys)
      · rw [List.find?_cons_of_pos ys (by simp only [decide_eq_true_eq]; exact hb),
            List.find?_cons_of_pos (y :: ys) (by simp only [decide_eq_true_eq]; exact hb)]
      · have hyfalse : ¬ (y.2 = maxSnd (b :: ys)) := by
          rw [maxSnd_cons]
          have h1 : b.2 ≤ Nat.max b.2 (maxSnd ys) := le_max_left _ _
          have hb2 : ¬ b.2 = Nat.max b.2 (maxSnd ys) := by rw [← maxSnd_cons]; exact hb
          omega
        rw [List.find?_cons_of_neg ys (by simp only [decide_eq_true_eq]; exact hb),
            List.find?_cons_of_neg (y :: ys) (by simp only [decide_eq_true_eq]; exact hb),
            List.find?_cons_of_neg ys (by simp only [decide_eq_true_eq]; exact hyfalse)]

/-- The source dominant-context computation agrees with the claim-side
argmax-with-declaration-order-ties reading. -/
theorem dominant_eq_claim :
    ∀ (contexts : List (String × List String)) (text : String),
      dominantContext contexts text = claimDominant contexts text := by
  intro contexts text
  unfold dominantContext claimDominant
  by_cases h0 : 0 < totalScore (scoreContexts contexts text)
  · rw [if_pos h0]
    have hne : scoreContexts contexts text ≠ [] := by
      intro h
      rw [h] at h0
      simp [totalScore] at h0
    have hall : ¬ ((scoreContexts contexts text).all (fun y => y.2 = 0) = true) := by
      intro hall
      have hz : totalScore (scoreContexts contexts text) = 0 := by
        unfold totalScore
        apply List.sum_eq_zero
        intro x hx
        rcases List.mem_map.mp hx with ⟨y, hy, rfl⟩
        have := List.all_eq_true.mp hall y hy
        simpa using this
      omega
    rw [if_neg hall]
    rcases hsc : scoreContexts contexts text with _ | ⟨s, rest⟩
    · exact absurd hsc hne
    · dsimp only
      rw [pyMax_eq_find]
      unfold argmaxFirst
      have hsome : ((s :: rest).find? (fun y => y.2 = maxSnd (s :: rest))).isSome = true := by
        apply List.find?_isSome.mpr
        rcases maxSnd_attained (s :: rest) (by simp) with ⟨z, hzmem, hzeq⟩
        exact ⟨z, hzmem, by simpa using hzeq⟩
      rcases Option.isSome_iff_exists.mp hsome with ⟨z, hz⟩
      rw [hz]
      rfl
  · rw [if_neg h0]
    have hall : (scoreContexts contexts text).all (fun y => y.2 = 0) = true := by
      apply List.all_eq_true.mpr
      intro y hy
      have hz : totalScore (scoreContexts contexts text) = 0 := by omega
      have hmem : y.2 ∈ (scoreContexts contexts text).map Prod.snd := List.mem_map_of_mem _ hy
      have := (List.sum_eq_zero_iff.mp hz) y.2 hmem
      simpa using this
    rw [if_pos hall]

/-- C9: in `extract_instances`, every motif-bearing dialogue yields an
instance whose per-category scores count that category's keyword
substrings in the text, and whose dominant context is the argmax category
with ties broken by declaration order, or `neutral` exactly when all
scores are 0; on the spec example `{innocence: [home], military: [war]}`
with text `I miss home` the scores are `{innocence: 1, military: 0}` and
the dominant context is `innocence`. -/
theorem c9_motif_scoring :
    (∀ (contexts : List (String × List String)) (text : String),
        dominantContext contexts text = claimDominant contexts text)
  ∧ (∀ (motif : String) (contexts : List (String × List String)) (dialogues : List MDialogue)
        (d : MDialogue), d ∈ dialogues → pyIn motif d.text = true →
        mkInstance contexts d ∈ extractInstances motif contexts dialogues
        ∧ (mkInstance contexts d).scores = scoreContexts contexts d.text
        ∧ (mkInstance contexts d).dominant = dominantContext contexts d.text)
  ∧ scoreContexts [("innocence", ["home"]), ("military", ["war"])] "I miss home"
      = [("innocence", 1), ("military", 0)]
  ∧ dominantContext [("innocence", ["home"]), ("military", ["war"])] "I miss home" = "innocence"
  ∧ dominantContext [("alpha", ["x"]), ("beta", ["x"])] "x marks ties" = "alpha"
  ∧ dominantContext [("innocence", ["home"]), ("military", ["war"])] "nothing here" = "neutral" := by
  refine ⟨dominant_eq_claim, ?_, by rfl, by rfl, by rfl, by rfl⟩
  intro motif contexts dialogues d hmem hmot
  refine ⟨?_, rfl, rfl⟩
  induction dialogues with
  | nil => simp at hmem
  | cons a ds ih =>
    rcases List.mem_cons.mp hmem with rfl | hmem2
    · unfold extractInstances
      rw [hmot]
      exact List.mem_cons_self _ _
    · unfold extractInstances
      split
      · exact List.mem_cons_of_mem _ (ih hmem2)
      · exact ih hmem2

/-- C9 witness: a concrete motif-bearing dialogue yields its instance. -/
theorem c9_motif_scoring_witness :
    mkInstance [("innocence", ["home"]), ("military", ["war"])]
        { mapId := 3, mapName := "camp", eventId := 1, line := 9, text := "red hood misses home" }
      ∈ extractInstances "red hood" [("innocence", ["home"]), ("military", ["war"])]
          [{ mapId := 3, mapName := "camp", eventId := 1, line := 9, text := "red hood misses home" }] :=
  (c9_motif_scoring.2.1 "red hood" [("innocence", ["home"]), ("military", ["war"])]
    [{ mapId := 3, mapName := "camp", eventId := 1, line := 9, text := "red hood misses home" }]
    { mapId := 3, mapName := "camp", eventId := 1, line := 9, text := "red hood misses home" }
    (List.mem_singleton.mpr rfl) (by rfl)).1


/-! ### Claim C7: the co-occurrence network -/

/-- C7 counterexample: with threshold 0 the edge condition is not an
"iff": two keywords with co-occurrence count 0 satisfy `count ≥ 0` yet
the graph (whose dict only holds pairs that actually co-occurred) has no
edge between them. -/
theorem c7_network_counterexample :
    hasEdgeBetween ["a", "b"] [] [] 0 "a" "b" = false
    ∧ 0 ≤ coocCount (["a", "b"] ++ []) [] (canonPair "a" "b")
    ∧ ¬ ((hasEdgeBetween ["a", "b"] [] [] 0 "a" "b" = true) ↔
          0 ≤ coocCount (["a", "b"] ++ []) [] (canonPair "a" "b")) := by
  refine ⟨rfl, Nat.zero_le _, ?_⟩
  intro h
  exact absurd (h.mpr (Nat.zero_le _)) (by decide)

/-- C7 (amended): for every threshold t ≥ 1, `build_network` has an edge
between two keywords iff their canonical co-occurrence pair has count
≥ t; every edge carries its pair's count as weight; and after
isolated-node removal every remaining node has an incident edge, is a
configured entity or theme keyword, and carries node type `entity` or
`theme`. -/
theorem c7_network_amended :
    (∀ (entities themes texts : List String) (t : ℕ) (a b : String), 1 ≤ t →
        ((hasEdgeBetween entities themes texts t a b = true) ↔
          t ≤ coocCount (entities ++ themes) texts (canonPair a b)))
  ∧ (∀ (entities themes texts : List String) (t : ℕ),
        ∀ e ∈ networkEdges entities themes texts t,
          e.2 = coocCount (entities ++ themes) texts e.1)
  ∧ (∀ (entities themes texts : List String) (t : ℕ),
        ∀ n ∈ networkNodes entities themes texts t,
          hasIncidentEdge (networkEdges entities themes texts t) n = true
          ∧ n ∈ entities ++ themes
          ∧ (nodeTypeOf themes n = "entity" ∨ nodeTypeOf themes n = "theme")) := by
  refine ⟨?_, ?_, ?_⟩
  · intro entities themes texts t a b ht
    constructor
    · intro h
      rcases List.any_eq_true.mp h with ⟨e, he, hpe⟩
      rcases List.mem_filterMap.mp he with ⟨p, hp, hif⟩
      by_cases hc : t ≤ coocCount (entities ++ themes) texts p
      · rw [if_pos hc] at hif
        injection hif with hif
        subst hif
        simp only [decide_eq_true_eq] at hpe
        rw [← hpe]
        exact hc
      · rw [if_neg hc] at hif
        exact Option.noConfusion hif
    · intro hc
      have hpos : 0 < (coocPairsAll (entities ++ themes) texts).count (canonPair a b) := by
        calc 0 < t := ht
        _ ≤ _ := hc
      have hmem : canonPair a b ∈ coocPairsAll (entities ++ themes) texts :=
        List.count_pos_iff.mp hpos
      apply List.any_eq_true.mpr
      refine ⟨(canonPair a b, coocCount (entities ++ themes) texts (canonPair a b)), ?_, by simp⟩
      apply List.mem_filterMap.mpr
      refine ⟨canonPair a b, mem_dedupFirst.mpr hmem, ?_⟩
      rw [if_pos hc]
  · intro entities themes texts t e he
    rcases List.mem_filterMap.mp he with ⟨p, hp, hif⟩
    by_cases hc : t ≤ coocCount (entities ++ themes) texts p
    · rw [if_pos hc] at hif
      injection hif with hif
      subst hif
      rfl
    · rw [if_neg hc] at hif
      exact Option.noConfusion hif
  · intro entities themes texts t n hn
    rcases List.mem_filter.mp hn with ⟨hmem, hpred⟩
    refine ⟨hpred, mem_dedupFirst.mp hmem, ?_⟩
    unfold nodeTypeOf
    split_ifs
    · exact .inr rfl
    · exact .inl rfl

/-- C7 (amended) witness: with threshold 2, the pair `(blood, wolf)`
co-occurring in two dialogues yields an edge. -/
theorem c7_network_amended_witness :
    (2 : ℕ) ≤ coocCount (["wolf"] ++ ["blood"]) ["the wolf blood ran", "wolf and blood again"]
        (canonPair "wolf" "blood")
    ∧ hasEdgeBetween ["wolf"] ["blood"] ["the wolf blood ran", "wolf and blood again"] 2 "wolf" "blood" = true := by
  refine ⟨by decide, ?_⟩
  exact (c7_network_amended.1 ["wolf"] ["blood"] ["the wolf blood ran", "wolf and blood again"]
    2 "wolf" "blood" (by decide)).mpr (by decide)

end GrimFairy

/-! ### Claim C4: FIFO alignment and the alignment score -/

namespace GrimFairy

theorem groupGet_addToGroup {β : Type} (t k : String) (v : β) :
    ∀ g : List (String × List β),
      groupGet t (addToGroup k v g)
        = if k = t then groupGet t g ++ [v] else groupGet t g
  | [] => by
    by_cases hk : k = t <;> simp [addToGroup, groupGet, hk]
  | (k', vs) :: rest => by
    by_cases hk' : k' = k
    · subst hk'
      by_cases hk : k' = t <;> simp [addToGroup, groupGet, hk]
    · by_cases ht : k' = t
      · subst ht
        have hkt : ¬ k = k' := fun h => hk' h.symm
        simp [addToGroup, hk', groupGet, hkt]
      · simp [addToGroup, hk', groupGet, ht, groupGet_addToGroup t k v rest]

theorem groupGet_foldl {β : Type} (key : β → String) (t : String) :
    ∀ (l : List β) (acc : List (String × List β)),
      groupGet t (l.foldl (fun a b => addToGroup (key b) b a) acc)
        = groupGet t acc ++ l.filter (fun b => key b = t)
  | [], acc => by simp
  | b :: bs, acc => by
    rw [List.foldl_cons, groupGet_foldl key t bs, groupGet_addToGroup, List.filter_cons]
    by_cases h : key b = t <;> simp [h]

theorem groupGet_groupByFirst {β : Type} (key : β → String) (t : String) (l : List β) :
    groupGet t (groupByFirst key l) = l.filter (fun b => key b = t) := by
  unfold groupByFirst
  rw [groupGet_foldl]
  simp [groupGet]

theorem fst_addToGroup {β : Type} (k : String) (v : β) :
    ∀ g : List (String × List β),
      (addToGroup k v g).map Prod.fst
        = if k ∈ g.map Prod.fst then g.map Prod.fst else g.map Prod.fst ++ [k]
  | [] => by simp [addToGroup]
  | (k', vs) :: rest => by
    by_cases hk' : k' = k
    · subst hk'
      simp [addToGroup]
    · have hne : ¬ k = k' := fun h => hk' h.symm
      by_cases hm : k ∈ rest.map Prod.fst <;>
        simp [addToGroup, hk', fst_addToGroup k v rest, hm, hne]

theorem keys_foldl {β : Type} (key : β → String) :
    ∀ (l : List β) (acc : List (String × List β)),
      (l.foldl (fun a b => addToGroup (key b) b a) acc).map Prod.fst
        = acc.map Prod.fst
          ++ (dedupFirst (l.map key)).filter (fun t => t ∉ acc.map Prod.fst)
  | [], acc => by simp [dedupFirst]
  | b :: bs, acc => by
    rw [List.foldl_cons, keys_foldl key bs]
    by_cases h : key b ∈ acc.map Prod.fst
    · have ha : (addToGroup (key b) b acc).map Prod.fst = acc.map Prod.fst := by
        rw [fst_addToGroup]; simp [h]
      simp only [ha, List.map_cons]
      simp only [dedupFirst, List.filter_cons]
      simp [h]
      apply List.filter_congr
      intro x hx
      by_cases hxa : x ∈ acc.map Prod.fst
      · simp [hxa]
      · have hxk : x ≠ key b := fun he => hxa (he ▸ h)
        simp [hxa, hxk]
    · have ha : (addToGroup (key b) b acc).map Prod.fst
          = acc.map Prod.fst ++ [key b] := by
        rw [fst_addToGroup]; simp [h]
      simp only [ha, List.map_cons]
      simp only [dedupFirst, List.filter_cons]
      simp [h]
      apply List.filter_congr
      intro x hx
      by_cases hxa : x ∈ acc.map Prod.fst <;> by_cases hxk : x = key b <;>
        simp [hxa, hxk]

theorem keys_groupByFirst {β : Type} (key : β → String) (l : List β) :
    (groupByFirst key l).map Prod.fst = dedupFirst (l.map key) := by
  unfold groupByFirst
  rw [keys_foldl]
  simp

theorem assoc_reconstruct {β : Type} :
    ∀ g : List (String × List β), (g.map Prod.fst).Nodup →
      g = (g.map Prod.fst).map (fun t => (t, groupGet t g))
  | [] => fun _ => rfl
  | (k, vs) :: rest => fun hnd => by
    rw [List.map_cons] at hnd
    have hk : k ∉ rest.map Prod.fst := (List.nodup_cons.mp hnd).1
    have hrest : (rest.map Prod.fst).Nodup := (List.nodup_cons.mp hnd).2
    simp only [List.map_cons]
    congr 1
    · simp [groupGet]
    · have hmap : (rest.map Prod.fst).map (fun t => (t, groupGet t ((k, vs) :: rest)))
          = (rest.map Prod.fst).map (fun t => (t, groupGet t rest)) := by
        apply List.map_congr_left
        intro t ht
        have hne : ¬ k = t := fun h => hk (h ▸ ht)
        simp [groupGet, hne]
      rw [hmap, ← assoc_reconstruct rest hrest]

theorem alignGroup_eq (bt : String) :
    ∀ (F : List FilmBeat) (G : List GameBeat),
      alignGroup bt F G
        = (F.zip G).map (fun p => rowMatched bt p.1 p.2)
          ++ (F.drop G.length).map (fun fb => rowUnmatched bt fb)
  | [], G => by simp [alignGroup]
  | fb :: fbs, [] => by
    simp [alignGroup, alignGroup_eq bt fbs []]
  | fb :: fbs, gb :: gbs => by
    simp [alignGroup, alignGroup_eq bt fbs gbs]

theorem flatMap_map {α β γ : Type} (g : α → β) (f : β → List γ) :
    ∀ l : List α, (l.map g).flatMap f = l.flatMap (fun x => f (g x))
  | [] => rfl
  | x :: xs => by simp [flatMap_map g f xs]

theorem computeAlignmentRows_eq_claim (films : List FilmBeat) (games : List GameBeat) :
    computeAlignmentRows films games = alignClaim films games := by
  unfold computeAlignmentRows alignClaim
  have hkeys : (groupByFirst (fun fb => fb.type) films).map Prod.fst
      = dedupFirst (films.map (fun fb => fb.type)) :=
    keys_groupByFirst _ films
  have hnd : ((groupByFirst (fun fb => fb.type) films).map Prod.fst).Nodup := by
    rw [hkeys]; exact nodup_dedupFirst _
  conv_lhs => rw [assoc_reconstruct _ hnd, hkeys]
  rw [flatMap_map]
  refine congrArg (List.flatMap _) (funext fun t => ?_)
  rw [groupGet_groupByFirst, groupGet_groupByFirst, alignGroup_eq]

theorem length_alignGroup (bt : String) :
    ∀ (F : List FilmBeat) (G : List GameBeat),
      (alignGroup bt F G).length = F.length
  | [], _ => by simp [alignGroup]
  | fb :: fbs, [] => by simp [alignGroup, length_alignGroup bt fbs []]
  | fb :: fbs, gb :: gbs => by simp [alignGroup, length_alignGroup bt fbs gbs]

theorem sizes_addToGroup {β : Type} (k : String) (v : β) :
    ∀ g : List (String × List β),
      ((addToGroup k v g).map (fun e => e.2.length)).sum
        = ((g.map (fun e => e.2.length)).sum) + 1
  | [] => by simp [addToGroup]
  | (k', vs) :: rest => by
    by_cases hk' : k' = k
    · subst hk'
      simp [addToGroup]
      omega
    · simp [addToGroup, hk', sizes_addToGroup k v rest]
      omega

theorem sizes_foldl {β : Type} (key : β → String) :
    ∀ (l : List β) (acc : List (String × List β)),
      (((l.foldl (fun a b => addToGroup (key b) b a) acc)).map
          (fun e => e.2.length)).sum
        = ((acc.map (fun e => e.2.length)).sum) + l.length
  | [], acc => by simp
  | b :: bs, acc => by
    rw [List.foldl_cons, sizes_foldl key bs, sizes_addToGroup]
    simp
    omega

theorem length_computeAlignmentRows (films : List FilmBeat) (games : List GameBeat) :
    (computeAlignmentRows films games).length = films.length := by
  unfold computeAlignmentRows
  rw [List.length_flatMap]
  have hmap : List.map
      (List.length ∘ fun g => alignGroup g.1 g.2
        (groupGet g.1 (groupByFirst (fun gb => gb.type) games)))
      (groupByFirst (fun fb => fb.type) films)
      = List.map (fun e => e.2.length) (groupByFirst (fun fb => fb.type) films) := by
    apply List.map_congr_left
    intro g _
    exact length_alignGroup g.1 g.2 _
  rw [hmap]
  unfold groupByFirst
  rw [sizes_foldl]
  simp

theorem mapM_keyed_snd :
    ∀ (rows : List Row) (keyed : List (ℚ × Row)),
      List.mapM' (fun r => do
          let k ← timestampToMinutes r.filmTimestamp
          pure (k, r)) rows = Except.ok keyed →
        keyed.map Prod.snd = rows
  | [], keyed => by
    intro h
    have h' : Except.ok ([] : List (ℚ × Row)) = Except.ok keyed := h
    cases Except.ok.inj h'
    rfl
  | r :: rs, keyed => by
    intro h
    simp only [List.mapM'] at h
    cases h1 : timestampToMinutes r.filmTimestamp with
    | error e =>
      rw [h1] at h
      exact Except.noConfusion (show Except.error e = Except.ok keyed from h)
    | ok k =>
      rw [h1] at h
      cases h2 : List.mapM' (fun r => do
          let k ← timestampToMinutes r.filmTimestamp
          pure (k, r)) rs with
      | error e =>
        rw [h2] at h
        exact Except.noConfusion (show Except.error e = Except.ok keyed from h)
      | ok bs =>
        rw [h2] at h
        have h' : Except.ok ((k, r) :: bs) = Except.ok keyed := h
        cases Except.ok.inj h'
        simp [mapM_keyed_snd rs bs h2]

theorem computeAlignment_ok_perm (films : List FilmBeat) (games : List GameBeat)
    (tbl : List Row) (h : computeAlignment films games = Except.ok tbl) :
    tbl.Perm (computeAlignmentRows films games) := by
  unfold computeAlignment at h
  dsimp only at h
  split at h
  · exact Except.noConfusion h
  · rw [← List.mapM'_eq_mapM] at h
    cases hk : List.mapM' (fun r => do
        let k ← timestampToMinutes r.filmTimestamp
        pure (k, r)) (computeAlignmentRows films games) with
    | error e =>
      rw [hk] at h
      exact Except.noConfusion (show Except.error e = Except.ok tbl from h)
    | ok keyed =>
      rw [hk] at h
      have h' : Except.ok ((List.insertionSort (fun a b => a.1 ≤ b.1) keyed).map Prod.snd)
          = Except.ok tbl := h
      cases Except.ok.inj h'
      have hperm := (List.perm_insertionSort (fun a b : ℚ × Row => a.1 ≤ b.1) keyed).map Prod.snd
      rw [mapM_keyed_snd _ _ hk] at hperm
      exact hperm

theorem computeAlignment_ok_rows_ne (films : List FilmBeat) (games : List GameBeat)
    (tbl : List Row) (h : computeAlignment films games = Except.ok tbl) :
    (computeAlignmentRows films games).isEmpty = false := by
  unfold computeAlignment at h
  dsimp only at h
  split at h
  · exact Except.noConfusion h
  · next hne => simpa using hne

theorem classifyMatch_eq_claim (fb : FilmBeat) (gb : GameBeat) :
    classifyMatch fb gb
      = if sharesOverlapWord fb.description gb.description
        then "Direct Transposition" else "Structural Homology" := by
  unfold classifyMatch sharesOverlapWord
  have hcond :
      (((pySplitWS (pyLower fb.description)).filter
          (fun w => overlapWords.contains w)).any
        (fun w => ((pySplitWS (pyLower gb.description)).filter
          (fun w => overlapWords.contains w)).contains w))
      = (overlapWords.any (fun w =>
          (pySplitWS (pyLower fb.description)).contains w
            && (pySplitWS (pyLower gb.description)).contains w)) := by
    rw [Bool.eq_iff_iff]
    simp only [List.any_eq_true, List.mem_filter, List.elem_iff, Bool.and_eq_true]
    constructor
    · rintro ⟨w, ⟨hf, ho⟩, hg, _⟩
      exact ⟨w, ho, hf, hg⟩
    · rintro ⟨w, ho, hf, hg⟩
      exact ⟨w, ⟨hf, ho⟩, hg, ho⟩
  dsimp only
  rw [hcond]

/-- C4 counterexample: with zero reference beats the pipeline raises
instead of scoring 0 — `pd.DataFrame([])` has no columns, so
`compute_alignment` fails at the `'Film Timestamp'` column access (line
134) and `calculate_alignment_score` at `'Matched'` (line 193); the
`total > 0` guard is never reached and no score-0 path exists. -/
theorem c4_alignment_counterexample :
    (∀ games : List GameBeat,
        computeAlignment [] games = Except.error "KeyError: Film Timestamp")
    ∧ calculateAlignmentScore [] = Except.error "KeyError: Matched"
    ∧ calculateAlignmentScore [] ≠ Except.ok 0 := by
  refine ⟨fun games => rfl, rfl, fun h => Except.noConfusion h⟩

/-- C4 (amended): `compute_alignment` groups beats by structural type;
each film beat yields exactly one row, consuming same-type game beats
FIFO (per type in first-appearance order, film beats pair positionally
with that type's game beats, the surplus is Unmatched); a matched pair
is a Direct Transposition exactly when the lowercased descriptions share
an overlap-vocabulary word; whenever the pipeline returns a table it has
one row per reference beat and the score is matched/total x 100, lying
in [0,100] — but with zero reference beats both `compute_alignment` and
`calculate_alignment_score` raise `KeyError` on the column-less empty
`DataFrame` rather than returning a 0 score. -/
theorem c4_alignment_fifo :
    (∀ (films : List FilmBeat) (games : List GameBeat),
        computeAlignmentRows films games = alignClaim films games)
  ∧ (∀ (fb : FilmBeat) (gb : GameBeat),
        classifyMatch fb gb
          = if sharesOverlapWord fb.description gb.description
            then "Direct Transposition" else "Structural Homology")
  ∧ (∀ (films : List FilmBeat) (games : List GameBeat) (tbl : List Row),
        computeAlignment films games = Except.ok tbl →
          films.length ≠ 0
          ∧ tbl.length = films.length
          ∧ countMatched tbl = countMatched (computeAlignmentRows films games)
          ∧ calculateAlignmentScore tbl
              = Except.ok ((countMatched tbl : ℚ) / (films.length : ℚ) * 100)
          ∧ 0 ≤ (countMatched tbl : ℚ) / (films.length : ℚ) * 100
          ∧ (countMatched tbl : ℚ) / (films.length : ℚ) * 100 ≤ 100)
  ∧ (∀ games : List GameBeat,
        computeAlignment [] games = Except.error "KeyError: Film Timestamp")
  ∧ calculateAlignmentScore [] = Except.error "KeyError: Matched" := by
  refine ⟨computeAlignmentRows_eq_claim, classifyMatch_eq_claim, ?_,
    fun games => rfl, rfl⟩
  intro films games tbl h
  have hperm := computeAlignment_ok_perm films games tbl h
  have hrows : (computeAlignmentRows films games).isEmpty = false :=
    computeAlignment_ok_rows_ne films games tbl h
  have hfilms : films.length ≠ 0 := by
    intro h0
    have hlenr := length_computeAlignmentRows films games
    rw [h0] at hlenr
    rw [List.length_eq_zero.mp hlenr] at hrows
    simp at hrows
  have hlen : tbl.length = films.length := by
    rw [hperm.length_eq, length_computeAlignmentRows]
  have hcnt : countMatched tbl = countMatched (computeAlignmentRows films games) :=
    hperm.countP_eq _
  have htne : tbl.isEmpty = false := by
    rw [List.isEmpty_eq_false]
    intro he
    rw [he] at hlen
    exact hfilms hlen.symm
  have hpos : 0 < tbl.length := by
    rw [hlen]
    exact Nat.pos_of_ne_zero hfilms
  refine ⟨hfilms, hlen, hcnt, ?_, ?_, ?_⟩
  · unfold calculateAlignmentScore
    rw [htne]
    simp only [Bool.false_eq_true, if_false, hpos, if_true, hlen]
    rw [if_pos (Nat.pos_of_ne_zero hfilms)]
  · positivity
  · have hc : (countMatched tbl : ℚ) ≤ (films.length : ℚ) := by
      rw [← hlen]
      exact Nat.cast_le.mpr (List.countP_le_length _)
    have hl : (0 : ℚ) < (films.length : ℚ) := by
      exact_mod_cast Nat.pos_of_ne_zero hfilms
    calc (countMatched tbl : ℚ) / (films.length : ℚ) * 100
        ≤ 1 * 100 :=
          mul_le_mul_of_nonneg_right ((div_le_one hl).mpr hc) (by norm_num)
      _ = 100 := by norm_num

theorem c4_alignment_fifo_witness :
    computeAlignment [c4Film] [c4Game]
        = Except.ok [rowMatched "heroic_act" c4Film c4Game]
    ∧ (rowMatched "heroic_act" c4Film c4Game).matchType = "Direct Transposition"
    ∧ calculateAlignmentScore [rowMatched "heroic_act" c4Film c4Game]
        = Except.ok 100 := by
  have h : computeAlignment [c4Film] [c4Game]
      = Except.ok [rowMatched "heroic_act" c4Film c4Game] := rfl
  have h3 := c4_alignment_fifo.2.2.1 [c4Film] [c4Game] _ h
  refine ⟨h, rfl, ?_⟩
  rw [h3.2.2.2.1]
  have hc : countMatched [rowMatched "heroic_act" c4Film c4Game] = 1 := rfl
  rw [hc]
  norm_num

end GrimFairy
